import Mathlib

set_option maxRecDepth 400000

/-!
Verification development for a 9x9 constraint-satisfaction puzzle solver
(source: src/solver.py).  The Python classes `Solver` and `BoardState` are
shallowly embedded: the mutable 9x9 value matrix and the parallel matrix of
candidate bitmasks become lists of lists of natural numbers, and every
in-place mutation becomes a functional update threaded through folds that
mirror the source loops.
-/

/-- The bit string 111111111, named ALL_VALID in the source. -/
def ALL_VALID : Nat := 511

/-- Fuel-indexed helper for popcount; the fuel is always at least the
argument, so the zero-fuel branch is never taken on the actual call. -/
def popcountGo : Nat → Nat → Nat
  | 0, _ => 0
  | f + 1, x => if x = 0 then 0 else x % 2 + popcountGo f (x / 2)

/-- Number of 1 bits of a natural number; the source computes it as
bin(x).count of the digit 1. -/
def popcount (x : Nat) : Nat := popcountGo x x

/-- Fuel-indexed helper for get_vals_as_list, peeling bits from the low end
while counting the digit value upward, exactly as the source loop does. -/
def getValsGo : Nat → Nat → Nat → List Nat
  | 0, _, _ => []
  | f + 1, bstr, val =>
    if bstr = 0 then []
    else (if bstr % 2 = 1 then [val] else []) ++ getValsGo f (bstr / 2) (val + 1)

/-- Converts a bit string encoding the possible values for a cell to the
ascending list of integer values (source: get_vals_as_list). -/
def get_vals_as_list (bstr : Nat) : List Nat := getValsGo bstr bstr 1

/-- List read with a default, the embedding of an index read l[n]. -/
def getAt {α : Type} (d : α) : List α → Nat → α
  | [], _ => d
  | a :: _, 0 => a
  | _ :: t, n + 1 => getAt d t n

/-- List write, the embedding of an index assignment l[n] = x; writes past
the end of the list change nothing, a case that never occurs on the 9x9
matrices the solver builds. -/
def setAt {α : Type} : List α → Nat → α → List α
  | [], _, _ => []
  | _ :: t, 0, x => x :: t
  | a :: t, n + 1, x => a :: setAt t n x

/-- A 9x9 matrix as a list of row lists, the underlying data structure of
the Python class BoardState. -/
abbrev Mat : Type := List (List Nat)

/-- Matrix cell read m[r][c]. -/
def get2d (m : Mat) (r c : Nat) : Nat := getAt 0 (getAt [] m r) c

/-- Matrix cell write m[r][c] = x. -/
def set2d : Mat → Nat → Nat → Nat → Mat
  | [], _, _, _ => []
  | row :: rest, 0, c, x => setAt row c x :: rest
  | row :: rest, r + 1, c, x => row :: set2d rest r c x

/-- The embedding of the Python class BoardState: the 9x9 board of values
(0 denotes an empty cell) and the 9x9 matrix possible_vals of candidate
bitmasks. -/
structure BoardState where
  board : Mat
  pv : Mat
deriving DecidableEq

/-- All 81 cell coordinates in row-major order, the order in which every
scan loop of the source walks the board. -/
def cells : List (Nat × Nat) :=
  ((List.range 9).map (fun r => (List.range 9).map fun c => (r, c))).flatten

/-- The row loop of mark_value_invalid: AND the mask val_mask into the
candidate set of every cell of the given row. -/
def andMaskRow (pv : Mat) (row val_mask : Nat) : Mat :=
  (List.range 9).foldl (fun pv c => set2d pv row c (get2d pv row c &&& val_mask)) pv

/-- The column loop of mark_value_invalid: AND the mask val_mask into the
candidate set of every cell of the given column. -/
def andMaskCol (pv : Mat) (col val_mask : Nat) : Mat :=
  (List.range 9).foldl (fun pv r => set2d pv r col (get2d pv r col &&& val_mask)) pv

/-- The 3x3 square loop of mark_value_invalid: AND the mask val_mask into
the candidate set of every cell of the square with the given top-left
corner. -/
def andMaskBox (pv : Mat) (start_row start_col val_mask : Nat) : Mat :=
  (List.range' start_row 3).foldl
    (fun pv r => (List.range' start_col 3).foldl
      (fun pv c => set2d pv r c (get2d pv r c &&& val_mask)) pv) pv

/-- The whole update mark_value_invalid performs on the possible_vals
matrix: clear the candidate set of the cell itself, then AND the
complement mask over its row, its column and its 3x3 square, in the order
of the source loops. -/
def mviPv (pv : Mat) (row col val : Nat) : Mat :=
  let val_mask := 511 - (1 <<< (val - 1))
  let pv1 := andMaskRow (set2d pv row col 0) row val_mask
  let pv2 := andMaskCol pv1 col val_mask
  andMaskBox pv2 (3 * (row / 3)) (3 * (col / 3)) val_mask

/-- Embedding of BoardState.mark_value_invalid: apply the candidate update
mviPv; the board itself is untouched. -/
def mark_value_invalid (s : BoardState) (row col val : Nat) : BoardState :=
  { board := s.board, pv := mviPv s.pv row col val }

/-- Embedding of BoardState.place_value: write the value on the board, then
mark it invalid across the peer groups. -/
def place_value (s : BoardState) (row col val : Nat) : BoardState :=
  mark_value_invalid { board := set2d s.board row col val, pv := s.pv } row col val

/-- Embedding of BoardState.get_dist_to_goal: the count of filled-in
(non-zero) cells of the board. -/
def get_dist_to_goal (s : BoardState) : Nat :=
  ((List.range 9).map (fun r =>
    ((List.range 9).map fun c => if get2d s.board r c ≠ 0 then 1 else 0).sum)).sum

/-- Embedding of BoardState.is_complete: the comparison
get_dist_to_goal() == 0 exactly as the source writes it. -/
def is_complete (s : BoardState) : Bool := get_dist_to_goal s == 0

/-- Embedding of str(board_state): the canonical key of a state, the
row-major sequence of its 81 cell values. -/
def boardKey (s : BoardState) : List Nat :=
  ((List.range 9).map (fun r => (List.range 9).map fun c => get2d s.board r c)).flatten

/-- Embedding of BoardState.get_scored_next_steps: the row-major list of
entries (popcount, row, col, candidate list), one per cell whose candidate
set is non-empty. -/
def get_scored_next_steps (s : BoardState) : List (Nat × Nat × Nat × List Nat) :=
  cells.filterMap fun rc =>
    let pc := popcount (get2d s.pv rc.1 rc.2)
    if pc ≠ 0 then some (pc, rc.1, rc.2, get_vals_as_list (get2d s.pv rc.1 rc.2)) else none

/-- Strict comparison of scored entries by (popcount, row, col); the list
component of the source tuples is never reached because no two entries
share a cell. -/
def stepLT (a b : Nat × Nat × Nat × List Nat) : Bool :=
  a.1 < b.1 || (a.1 = b.1 && (a.2.1 < b.2.1 || (a.2.1 = b.2.1 && a.2.2.1 < b.2.2.1)))

/-- One comparison step of the scan for the minimum scored entry. -/
def minStepPick (acc : Option (Nat × Nat × Nat × List Nat)) (x : Nat × Nat × Nat × List Nat) :
    Option (Nat × Nat × Nat × List Nat) :=
  match acc with
  | none => some x
  | some m => if stepLT x m then some x else acc

/-- The minimum scored entry, the one the priority queue of
get_scored_next_steps hands out first. -/
def minStep (l : List (Nat × Nat × Nat × List Nat)) : Option (Nat × Nat × Nat × List Nat) :=
  l.foldl minStepPick none

/-- One cell visit of the fast_forward scan: when the candidate set has
exactly one bit, place that single value and raise the update flag. -/
def ffStep (acc : BoardState × Bool) (rc : Nat × Nat) : BoardState × Bool :=
  let m := get2d acc.1.pv rc.1 rc.2
  if popcount m = 1 then
    (place_value acc.1 rc.1 rc.2 ((get_vals_as_list m).headD 0), true)
  else acc

/-- One full row-major scan of the board inside fast_forward, returning the
updated state and whether any placement was made. -/
def onePass (s : BoardState) : BoardState × Bool := cells.foldl ffStep (s, false)

/-- Fuel-indexed repetition of onePass; 82 units of fuel always suffice
because every updating pass zeroes at least one candidate set of the 81
cells. -/
def fastForwardGo : Nat → BoardState → BoardState
  | 0, s => s
  | f + 1, s =>
    let p := onePass s
    if p.2 then fastForwardGo f p.1 else p.1

/-- Embedding of BoardState.fast_forward: rescan until a pass makes no
placement. -/
def fast_forward (s : BoardState) : BoardState := fastForwardGo 82 s

/-- Embedding of BoardState.create_children: take the best-rated scored
cell and return one fast-forwarded copy per candidate value; with no
scored cell at all, return no children. -/
def create_children (s : BoardState) : List BoardState :=
  match minStep (get_scored_next_steps s) with
  | none => []
  | some (_, row, col, choices) =>
    choices.map fun val => fast_forward (place_value s row col val)

/-- The candidate matrix a fresh BoardState starts from: ALL_VALID at every
cell. -/
def pvInit : Mat := List.replicate 9 (List.replicate 9 ALL_VALID)

/-- One cell visit of the constructor scan: a pre-filled cell is marked
invalid across its peer groups, an empty cell is skipped. -/
def ctorStep (s : BoardState) (rc : Nat × Nat) : BoardState :=
  if get2d s.board rc.1 rc.2 ≠ 0 then
    mark_value_invalid s rc.1 rc.2 (get2d s.board rc.1 rc.2)
  else s

/-- Embedding of the BoardState constructor: the board holds the input
grid, all candidate sets start at ALL_VALID, and every pre-filled cell is
marked invalid across its peer groups in row-major order. -/
def mkState (g : Mat) : BoardState :=
  cells.foldl ctorStep { board := g, pv := pvInit }

/-- The cells of rows r, r+1 and r+2 in row-major order; three of these
blocks in sequence make up the whole cell list, which lets the constructor
scan be evaluated band by band. -/
def bandCells (r : Nat) : List (Nat × Nat) :=
  ((List.range 3).map (fun i => (List.range 9).map fun c => (r + i, c))).flatten

/-- Scan of the frontier list for the entry the heap would pop: the least
distance, with ties between equal distances decided by the comparison lt
on the states (the source compares the BoardState objects themselves). -/
def pickGo (lt : BoardState → BoardState → Bool) :
    List (Nat × BoardState) → Nat → Nat × (Nat × BoardState) → Nat × (Nat × BoardState)
  | [], _, best => best
  | e :: rest, i, best =>
    if e.1 < best.2.1 || (e.1 = best.2.1 && lt e.2 best.2.2) then pickGo lt rest (i + 1) (i, e)
    else pickGo lt rest (i + 1) best

/-- Pop of the priority frontier: remove and return the minimal entry. -/
def popQueue (lt : BoardState → BoardState → Bool) :
    List (Nat × BoardState) → Option ((Nat × BoardState) × List (Nat × BoardState))
  | [] => none
  | e :: rest =>
    let p := pickGo lt rest 1 (0, e)
    some (p.2, (e :: rest).eraseIdx p.1)

/-- The body of the search loop of Solver.solve: pop a state, add its key
to the visited set, expand it with create_children, and append every child
whose key is not yet visited to the frontier with its own distance. -/
def loopBody (lt : BoardState → BoardState → Bool)
    (q : List (Nat × BoardState)) (vis : List (List Nat)) :
    Option (BoardState × List (Nat × BoardState) × List (List Nat)) :=
  match popQueue lt q with
  | none => none
  | some (e, q') =>
    let s := e.2
    let vis' := boardKey s :: vis
    let pushes := (create_children s).filterMap fun c =>
      if boardKey c ∈ vis' then none else some (get_dist_to_goal c, c)
    some (s, q' ++ pushes, vis')

/-- Fuel-indexed embedding of the while loop of Solver.solve; the guard is
exactly the source guard, and exhausted fuel with the guard still true is
reported as none rather than as a state. -/
def solveGo (lt : BoardState → BoardState → Bool) (fuel : Nat) (cur : BoardState)
    (q : List (Nat × BoardState)) (vis : List (List Nat)) : Option BoardState :=
  match fuel with
  | 0 => if is_complete cur || q.isEmpty then some cur else none
  | fuel' + 1 =>
    if is_complete cur || q.isEmpty then some cur
    else
      match loopBody lt q vis with
      | none => some cur
      | some (s, q2, vis2) => solveGo lt fuel' s q2 vis2

/-- Embedding of Solver.solve: fast-forward the initial state, push it with
its distance, and run the search loop. -/
def solve (lt : BoardState → BoardState → Bool) (fuel : Nat) (g : Mat) :
    Option BoardState :=
  let st := fast_forward (mkState g)
  solveGo lt fuel st [(get_dist_to_goal st, st)] []

/-- Tie order that keeps the earliest inserted of two equal-distance
frontier entries, one possible object ordering of the source heap. -/
def ltFifo : BoardState → BoardState → Bool := fun _ _ => false

/-- Tie order that prefers the latest inserted of two equal-distance
frontier entries, another possible object ordering of the source heap. -/
def ltLifo : BoardState → BoardState → Bool := fun _ _ => true

/-- A matrix that really is 9x9, the shape every board and candidate matrix
of the Python class has. -/
def shaped (m : Mat) : Prop := m.length = 9 ∧ ∀ row ∈ m, row.length = 9

/-- Number of grid cells whose candidate set is non-empty; each updating
pass of fast_forward strictly lowers it, which bounds the number of
passes. -/
def countNZ (s : BoardState) : Nat :=
  ((Finset.range 9 ×ˢ Finset.range 9).filter fun p => get2d s.pv p.1 p.2 ≠ 0).card

/-- The invariant of one given cell: the board holds the fixed value w at
(r, c) and the candidate set there is empty, so no later operation can
ever place at (r, c). -/
def keepsAt (r c w : Nat) (s : BoardState) : Prop :=
  get2d s.board r c = w ∧ get2d s.pv r c = 0

/-- The constant ROW_TOTAL of validate_solution, sum(range(1, 10)). -/
def ROW_TOTAL : Nat := (List.range' 1 9).sum

/-- Sum of one row of a solution board, as validate_solution computes it. -/
def rowSum (sol : Mat) (r : Nat) : Nat := ((List.range 9).map fun c => get2d sol r c).sum

/-- Sum of one column of a solution board, as validate_solution computes
it. -/
def colSum (sol : Mat) (c : Nat) : Nat := ((List.range 9).map fun r => get2d sol r c).sum

/-- Sum of one 3x3 section of a solution board given its top-left corner,
as validate_solution computes it. -/
def sectionSum (sol : Mat) (rs cs : Nat) : Nat :=
  ((List.range 3).map fun i => ((List.range' cs 3).map fun c => get2d sol (rs + i) c).sum).sum

/-- Outcome of Solver.validate_solution.  Each constructor corresponds to
one of the raise sites and carries exactly the data the source interpolates
into the message: the given-mutation message carries no location at all,
and the row message interpolates the row list itself rather than a row
index (the source even feeds that list to a numeric format code). -/
inductive VResult where
  | ok : VResult
  | initial_board_manipulated : VResult
  | row_total_mismatch : List Nat → VResult
  | col_total_mismatch : Nat → VResult
  | section_total_mismatch : Nat → Nat → VResult
deriving DecidableEq

/-- Embedding of Solver.validate_solution: givens first, then row sums,
then column sums, then 3x3 section sums; the first failed check wins. -/
def validate_solution (start sol : Mat) : VResult :=
  if cells.any (fun rc =>
      decide (get2d start rc.1 rc.2 ≠ 0) && decide (get2d start rc.1 rc.2 ≠ get2d sol rc.1 rc.2)) then
    .initial_board_manipulated
  else
    match (List.range 9).findSome? (fun r =>
        if rowSum sol r ≠ ROW_TOTAL then some ((List.range 9).map fun c => get2d sol r c)
        else none) with
    | some row => .row_total_mismatch row
    | none =>
      match (List.range 9).findSome? (fun c =>
          if colSum sol c ≠ ROW_TOTAL then some c else none) with
      | some c => .col_total_mismatch c
      | none =>
        match (((List.range' 0 3 3).map fun rs =>
            (List.range' 0 3 3).map fun cs => (rs, cs)).flatten).findSome? (fun b =>
            if sectionSum sol b.1 b.2 ≠ ROW_TOTAL then some b else none) with
        | some b => .section_total_mismatch b.1 b.2
        | none => .ok

/-- Following the specification wording only (not the source): a list that
holds each of the digits 1 to 9. -/
def spec_has_all_digits (l : List Nat) : Bool :=
  l.length == 9 && (List.range 9).all fun d => l.contains (d + 1)

/-- Following the specification wording only (not the source): a board
whose every row, every column and every 3x3 box is a permutation of the
digits 1 to 9. -/
def spec_is_solved (b : Mat) : Bool :=
  ((List.range 9).all fun r => spec_has_all_digits ((List.range 9).map fun c => get2d b r c)) &&
  ((List.range 9).all fun c => spec_has_all_digits ((List.range 9).map fun r => get2d b r c)) &&
  ((List.range 3).all fun br => (List.range 3).all fun bc =>
    spec_has_all_digits (((List.range 3).map fun i =>
      (List.range 3).map fun j => get2d b (3 * br + i) (3 * bc + j)).flatten))

/-- A fully solved grid, used as concrete test data. -/
def gridFull : Mat :=
  [[1,3,4,2,5,6,7,8,9],
   [2,7,8,1,9,3,4,5,6],
   [5,6,9,4,7,8,1,2,3],
   [3,1,2,5,6,4,8,9,7],
   [4,5,6,7,8,9,3,1,2],
   [8,9,7,3,1,2,5,6,4],
   [6,2,1,8,3,7,9,4,5],
   [9,8,3,6,4,5,2,7,1],
   [7,4,5,9,2,1,6,3,8]]

/-- The all-empty grid. -/
def gridZero : Mat := List.replicate 9 (List.replicate 9 0)

/-- gridFull with the four cells (0,0), (0,3), (1,0) and (1,3) erased; the
erased cells hold the values 1 and 2 in a rectangle pattern, so the grid
has exactly two completions and the search must branch once. -/
def gridRect : Mat :=
  [[0,3,4,0,5,6,7,8,9],
   [0,7,8,0,9,3,4,5,6],
   [5,6,9,4,7,8,1,2,3],
   [3,1,2,5,6,4,8,9,7],
   [4,5,6,7,8,9,3,1,2],
   [8,9,7,3,1,2,5,6,4],
   [6,2,1,8,3,7,9,4,5],
   [9,8,3,6,4,5,2,7,1],
   [7,4,5,9,2,1,6,3,8]]

/-- The second completion of gridRect: gridFull with the rectangle values
1 and 2 swapped. -/
def gridSwap : Mat :=
  [[2,3,4,1,5,6,7,8,9],
   [1,7,8,2,9,3,4,5,6],
   [5,6,9,4,7,8,1,2,3],
   [3,1,2,5,6,4,8,9,7],
   [4,5,6,7,8,9,3,1,2],
   [8,9,7,3,1,2,5,6,4],
   [6,2,1,8,3,7,9,4,5],
   [9,8,3,6,4,5,2,7,1],
   [7,4,5,9,2,1,6,3,8]]

/-- gridFull with cell (8,8) erased and cell (7,8) changed from 1 to 8:
the one empty cell sees all nine digits among its peers, so its candidate
set is empty and the grid has no completion at all. -/
def gridDead80 : Mat :=
  [[1,3,4,2,5,6,7,8,9],
   [2,7,8,1,9,3,4,5,6],
   [5,6,9,4,7,8,1,2,3],
   [3,1,2,5,6,4,8,9,7],
   [4,5,6,7,8,9,3,1,2],
   [8,9,7,3,1,2,5,6,4],
   [6,2,1,8,3,7,9,4,5],
   [9,8,3,6,4,5,2,7,8],
   [7,4,5,9,2,1,6,3,0]]

/-- gridRect with additionally cell (8,8) erased and cell (7,8) changed
from 1 to 8: the four rectangle cells still have the two candidates 1 and
2 each, while the empty cell (8,8) has an empty candidate set. -/
def gridC5 : Mat :=
  [[0,3,4,0,5,6,7,8,9],
   [0,7,8,0,9,3,4,5,6],
   [5,6,9,4,7,8,1,2,3],
   [3,1,2,5,6,4,8,9,7],
   [4,5,6,7,8,9,3,1,2],
   [8,9,7,3,1,2,5,6,4],
   [6,2,1,8,3,7,9,4,5],
   [9,8,3,6,4,5,2,7,8],
   [7,4,5,9,2,1,6,3,0]]

/-- Start grid with two given cells, at (0,0) and (5,5), used to probe the
validator. -/
def startG : Mat :=
  [[1,0,0,0,0,0,0,0,0],[0,0,0,0,0,0,0,0,0],[0,0,0,0,0,0,0,0,0],
   [0,0,0,0,0,0,0,0,0],[0,0,0,0,0,0,0,0,0],[0,0,0,0,0,2,0,0,0],
   [0,0,0,0,0,0,0,0,0],[0,0,0,0,0,0,0,0,0],[0,0,0,0,0,0,0,0,0]]

/-- Candidate answer that mutates the given at (0,0) and keeps the one at
(5,5). -/
def solA : Mat :=
  [[9,0,0,0,0,0,0,0,0],[0,0,0,0,0,0,0,0,0],[0,0,0,0,0,0,0,0,0],
   [0,0,0,0,0,0,0,0,0],[0,0,0,0,0,0,0,0,0],[0,0,0,0,0,2,0,0,0],
   [0,0,0,0,0,0,0,0,0],[0,0,0,0,0,0,0,0,0],[0,0,0,0,0,0,0,0,0]]

/-- Candidate answer that keeps the given at (0,0) and mutates the one at
(5,5). -/
def solB : Mat :=
  [[1,0,0,0,0,0,0,0,0],[0,0,0,0,0,0,0,0,0],[0,0,0,0,0,0,0,0,0],
   [0,0,0,0,0,0,0,0,0],[0,0,0,0,0,0,0,0,0],[0,0,0,0,0,7,0,0,0],
   [0,0,0,0,0,0,0,0,0],[0,0,0,0,0,0,0,0,0],[0,0,0,0,0,0,0,0,0]]

/-- Candidate answer whose first bad row sum is at row index 0, with row
contents nine ones. -/
def solR1 : Mat :=
  [List.replicate 9 1, List.replicate 9 5, List.replicate 9 5,
   List.replicate 9 5, List.replicate 9 5, List.replicate 9 5,
   List.replicate 9 5, List.replicate 9 5, List.replicate 9 5]

/-- Candidate answer whose first bad row sum is at row index 5, with the
same row contents of nine ones. -/
def solR2 : Mat :=
  [List.replicate 9 5, List.replicate 9 5, List.replicate 9 5,
   List.replicate 9 5, List.replicate 9 5, List.replicate 9 1,
   List.replicate 9 5, List.replicate 9 5, List.replicate 9 5]

/-- Candidate matrix of mkState gridRect after the constructor has scanned
the first band (rows 0 to 2). -/
def pvRectA : Mat :=
  [[3,0,0,3,0,0,0,0,0],[3,0,0,3,0,0,0,0,0],[0,0,0,0,0,0,0,0,0],
   [495,411,119,503,175,347,438,365,219],[495,411,119,503,175,347,438,365,219],
   [495,411,119,503,175,347,438,365,219],[495,411,119,503,175,347,438,365,219],
   [495,411,119,503,175,347,438,365,219],[495,411,119,503,175,347,438,365,219]]

/-- Candidate matrix of mkState gridRect after the constructor has scanned
the first two bands (rows 0 to 5). -/
def pvRectB : Mat :=
  [[3,0,0,3,0,0,0,0,0],[3,0,0,3,0,0,0,0,0],[0,0,0,0,0,0,0,0,0],
   [0,0,0,0,0,0,0,0,0],[0,0,0,0,0,0,0,0,0],[0,0,0,0,0,0,0,0,0],
   [355,138,21,419,14,81,290,76,145],[355,138,21,419,14,81,290,76,145],
   [355,138,21,419,14,81,290,76,145]]

/-- Final candidate matrix of mkState gridRect (and of mkState gridC5,
whose grid differs from gridRect only at filled cells of the last band):
the four rectangle cells keep the candidate pair 1 and 2, every other cell
is settled. -/
def pvRectFinal : Mat :=
  [[3,0,0,3,0,0,0,0,0],[3,0,0,3,0,0,0,0,0],[0,0,0,0,0,0,0,0,0],
   [0,0,0,0,0,0,0,0,0],[0,0,0,0,0,0,0,0,0],[0,0,0,0,0,0,0,0,0],
   [0,0,0,0,0,0,0,0,0],[0,0,0,0,0,0,0,0,0],[0,0,0,0,0,0,0,0,0]]

/-- Candidate matrix of mkState gridDead80 after the first band. -/
def pvDeadA : Mat :=
  [[0,0,0,0,0,0,0,0,0],[0,0,0,0,0,0,0,0,0],[0,0,0,0,0,0,0,0,0],
   [492,411,119,500,175,347,438,365,219],[492,411,119,500,175,347,438,365,219],
   [492,411,119,500,175,347,438,365,219],[492,411,119,500,175,347,438,365,219],
   [492,411,119,500,175,347,438,365,219],[492,411,119,500,175,347,438,365,219]]

/-- Candidate matrix of mkState gridDead80 after the first two bands. -/
def pvDeadB : Mat :=
  [[0,0,0,0,0,0,0,0,0],[0,0,0,0,0,0,0,0,0],[0,0,0,0,0,0,0,0,0],
   [0,0,0,0,0,0,0,0,0],[0,0,0,0,0,0,0,0,0],[0,0,0,0,0,0,0,0,0],
   [352,138,21,416,14,81,290,76,145],[352,138,21,416,14,81,290,76,145],
   [352,138,21,416,14,81,290,76,145]]

/-- The all-zero candidate matrix, final candidate matrix of
mkState gridDead80: every cell is either filled or contradictory. -/
def pvZero : Mat := List.replicate 9 (List.replicate 9 0)

/-- mkState gridRect after band one. -/
def sRectA : BoardState := { board := gridRect, pv := pvRectA }

/-- mkState gridRect after bands one and two. -/
def sRectB : BoardState := { board := gridRect, pv := pvRectB }

/-- The state mkState gridRect, written out. -/
def sRect : BoardState := { board := gridRect, pv := pvRectFinal }

/-- mkState gridDead80 after band one. -/
def sDeadA : BoardState := { board := gridDead80, pv := pvDeadA }

/-- mkState gridDead80 after bands one and two. -/
def sDeadB : BoardState := { board := gridDead80, pv := pvDeadB }

/-- The state mkState gridDead80, written out. -/
def sDead : BoardState := { board := gridDead80, pv := pvZero }

/-- mkState gridC5 after band one. -/
def sC5A : BoardState := { board := gridC5, pv := pvRectA }

/-- mkState gridC5 after bands one and two. -/
def sC5B : BoardState := { board := gridC5, pv := pvRectB }

/-- The state mkState gridC5, written out. -/
def sC5 : BoardState := { board := gridC5, pv := pvRectFinal }

/-- One masking loop of mark_value_invalid in generic form: AND the mask
into the candidate set of every cell of the given list, in order. -/

def maskFold (m : Nat) (P : List (Nat × Nat)) (pv : Mat) : Mat :=
  P.foldl (fun pv rc => set2d pv rc.1 rc.2 (get2d pv rc.1 rc.2 &&& m)) pv

theorem cells_bands : cells = (bandCells 0 ++ bandCells 3) ++ bandCells 6 := by decide

theorem mkRect_eq : mkState gridRect = sRect := by
  have h0 : (bandCells 0).foldl ctorStep { board := gridRect, pv := pvInit } = sRectA := by decide
  have h1 : (bandCells 3).foldl ctorStep sRectA = sRectB := by decide
  have h2 : (bandCells 6).foldl ctorStep sRectB = sRect := by decide
  show cells.foldl ctorStep { board := gridRect, pv := pvInit } = sRect
  rw [cells_bands, List.foldl_append, List.foldl_append, h0, h1, h2]

theorem mkDead_eq : mkState gridDead80 = sDead := by
  have h0 : (bandCells 0).foldl ctorStep { board := gridDead80, pv := pvInit } = sDeadA := by decide
  have h1 : (bandCells 3).foldl ctorStep sDeadA = sDeadB := by decide
  have h2 : (bandCells 6).foldl ctorStep sDeadB = sDead := by decide
  show cells.foldl ctorStep { board := gridDead80, pv := pvInit } = sDead
  rw [cells_bands, List.foldl_append, List.foldl_append, h0, h1, h2]

theorem mkC5_eq : mkState gridC5 = sC5 := by
  have h0 : (bandCells 0).foldl ctorStep { board := gridC5, pv := pvInit } = sC5A := by decide
  have h1 : (bandCells 3).foldl ctorStep sC5A = sC5B := by decide
  have h2 : (bandCells 6).foldl ctorStep sC5B = sC5 := by decide
  show cells.foldl ctorStep { board := gridC5, pv := pvInit } = sC5
  rw [cells_bands, List.foldl_append, List.foldl_append, h0, h1, h2]

theorem solveRect_fifo : (solve ltFifo 10 gridRect).map boardKey = some gridSwap.flatten := by
  show (solveGo ltFifo 10 (fast_forward (mkState gridRect))
      [(get_dist_to_goal (fast_forward (mkState gridRect)),
        fast_forward (mkState gridRect))] []).map boardKey = some gridSwap.flatten
  rw [mkRect_eq, show fast_forward sRect = sRect from by decide,
    show get_dist_to_goal sRect = 77 from by decide]
  decide

theorem solveRect_lifo : (solve ltLifo 10 gridRect).map boardKey = some gridFull.flatten := by
  show (solveGo ltLifo 10 (fast_forward (mkState gridRect))
      [(get_dist_to_goal (fast_forward (mkState gridRect)),
        fast_forward (mkState gridRect))] []).map boardKey = some gridFull.flatten
  rw [mkRect_eq, show fast_forward sRect = sRect from by decide,
    show get_dist_to_goal sRect = 77 from by decide]
  decide

theorem solveDead_eq : solve ltFifo 5 gridDead80 = some sDead := by
  show solveGo ltFifo 5 (fast_forward (mkState gridDead80))
      [(get_dist_to_goal (fast_forward (mkState gridDead80)),
        fast_forward (mkState gridDead80))] [] = some sDead
  rw [mkDead_eq, show fast_forward sDead = sDead from by decide,
    show get_dist_to_goal sDead = 80 from by decide]
  decide

/-- C1: the claim fails on the code.  The all-zero grid is solvable (the
explicitly written grid gridFull is a valid completed grid, and the
all-zero grid constrains nothing), yet solve returns the all-zero board
itself, which is not a grid whose rows, columns and boxes are permutations
of 1..9: the inverted completeness test accepts the empty board as a goal
state before the loop ever runs. -/
theorem c1_solve_on_solvable_empty_grid :
    spec_is_solved gridFull = true ∧
    (∀ r, r < 9 → ∀ c, c < 9 → get2d gridZero r c = 0) ∧
    (solve ltFifo 5 gridZero).map boardKey = some (List.replicate 81 0) ∧
    (solve ltFifo 5 gridZero).map (fun s => spec_is_solved s.board) = some false := by
  refine ⟨by decide, by decide, by decide, by decide⟩

/-- C2: the claim fails on the code.  On the state built from the fully
solved grid gridFull, every one of the 81 cells holds a non-zero digit and
yet is_complete returns false, while on the state built from the all-zero
grid is_complete returns true: get_dist_to_goal counts the filled cells,
so the comparison with zero recognizes the empty board, not the full one. -/
theorem c2_is_complete_inverted :
    (∀ r, r < 9 → ∀ c, c < 9 → get2d (mkState gridFull).board r c ≠ 0) ∧
    is_complete (mkState gridFull) = false ∧
    (∀ r, r < 9 → ∀ c, c < 9 → get2d (mkState gridZero).board r c = 0) ∧
    is_complete (mkState gridZero) = true := by
  refine ⟨by decide, by decide, by decide, by decide⟩

/-- C3 counterexample: on the unsolvable grid gridDead80 the frontier is
exhausted without any complete state, and solve hands back the last popped
state as an ordinary return value: an incomplete board whose cell (8,8),
position 80 of the canonical key, is still 0.  No failure of any kind is
raised by the source loop. -/
theorem c3_counterexample :
    (solve ltFifo 5 gridDead80).map (fun s => (boardKey s, is_complete s)) =
      some (gridDead80.flatten, false) ∧
    getAt 0 gridDead80.flatten 80 = 0 := by
  refine ⟨?_, by decide⟩
  rw [solveDead_eq]
  decide

/-- C4 counterexample: a search configuration whose frontier holds the
branching state sRect while the seen set already holds its canonical key.
The claim says the popped state must be discarded without expansion, so
the loop body would push nothing; instead the body of the source loop
expands it and pushes its two children onto the frontier. -/
theorem c4_counterexample :
    is_complete sRect = false ∧
    boardKey sRect ∈ [boardKey sRect] ∧
    (loopBody ltFifo [(77, sRect)] [boardKey sRect]).map (fun t => t.2.1.length) = some 2 := by
  refine ⟨by decide, by decide, by decide⟩

/-- C5 counterexample: in the state built from gridC5 the unfilled cell
(8,8) has an empty candidate set, hence it is the unfilled cell with the
fewest candidates, yet create_children does not return an empty list: it
skips the contradictory cell entirely and branches on the candidate pair
of cell (0,0), returning two children (in which cell (8,8) is still never
assigned a value). -/
theorem c5_counterexample :
    get2d (mkState gridC5).board 8 8 = 0 ∧
    get2d (mkState gridC5).pv 8 8 = 0 ∧
    minStep (get_scored_next_steps (mkState gridC5)) = some (2, 0, 0, [1, 2]) ∧
    (create_children (mkState gridC5)).length = 2 ∧
    (create_children (mkState gridC5)).all (fun ch => get2d ch.board 8 8 == 0) = true := by
  rw [mkC5_eq]
  refine ⟨by decide, by decide, by decide, by decide, by decide⟩

/-- C7 counterexample: the validator reports a mutated given with an error
that carries no location, so two candidate answers that mutate different
given cells of the same start grid produce identical errors; and it
reports a bad row sum with the row contents rather than the row index, so
two candidate answers whose first bad rows are at different indices but
with equal contents also produce identical errors.  The reported failure
therefore does not identify the offending cell, nor the offending row. -/
theorem c7_counterexample :
    validate_solution startG solA = .initial_board_manipulated ∧
    validate_solution startG solB = .initial_board_manipulated ∧
    get2d startG 0 0 ≠ 0 ∧ get2d solA 0 0 ≠ get2d startG 0 0 ∧
    get2d solA 5 5 = get2d startG 5 5 ∧
    get2d startG 5 5 ≠ 0 ∧ get2d solB 5 5 ≠ get2d startG 5 5 ∧
    get2d solB 0 0 = get2d startG 0 0 ∧
    validate_solution gridZero solR1 = .row_total_mismatch (List.replicate 9 1) ∧
    validate_solution gridZero solR2 = .row_total_mismatch (List.replicate 9 1) ∧
    rowSum solR1 0 ≠ ROW_TOTAL ∧ rowSum solR2 0 = ROW_TOTAL ∧
    rowSum solR2 5 ≠ ROW_TOTAL := by
  refine ⟨by decide, by decide, by decide, by decide, by decide, by decide, by decide,
    by decide, by decide, by decide, by decide, by decide, by decide⟩

/-- C9 counterexample: the two embeddings of the source frontier differ
only in which of two equal-priority entries the underlying heap hands out
first, which the source leaves to the comparison of BoardState objects
(object identity); on gridRect they return different grids, so solve is
not deterministic under the unspecified tie order. -/
theorem c9_counterexample :
    (solve ltFifo 10 gridRect).map boardKey ≠ (solve ltLifo 10 gridRect).map boardKey := by
  rw [solveRect_fifo, solveRect_lifo]
  decide

/-- C9 (amended): solve is a deterministic function of the input grid and
of the tie order used between equal-priority frontier entries, but the tie
order itself is not fixed by the source (the heap compares BoardState
objects); for the earliest-first tie order the result on gridRect is the
completion gridSwap, for the latest-first tie order it is the completion
gridFull. -/
theorem c9_amended_tie_break_dependence :
    (solve ltFifo 10 gridRect).map boardKey = some gridSwap.flatten ∧
    (solve ltLifo 10 gridRect).map boardKey = some gridFull.flatten :=
  ⟨solveRect_fifo, solveRect_lifo⟩

theorem getAt_of_length_le {α : Type} (d : α) (l : List α) (n : Nat) (h : l.length ≤ n) :
    getAt d l n = d := by
  induction l generalizing n with
  | nil => cases n <;> rfl
  | cons a t ih =>
    cases n with
    | zero => simp at h
    | succ m => exact ih m (by simp at h; omega)

theorem setAt_of_length_le {α : Type} (l : List α) (n : Nat) (x : α) (h : l.length ≤ n) :
    setAt l n x = l := by
  induction l generalizing n with
  | nil => rfl
  | cons a t ih =>
    cases n with
    | zero => simp at h
    | succ m => simp [setAt]; exact ih m (by simp at h; omega)

theorem setAt_length {α : Type} (l : List α) (n : Nat) (x : α) :
    (setAt l n x).length = l.length := by
  induction l generalizing n with
  | nil => rfl
  | cons a t ih => cases n <;> simp [setAt, ih]

theorem getAt_setAt {α : Type} (d x : α) (l : List α) (n m : Nat) :
    getAt d (setAt l n x) m = if n = m ∧ n < l.length then x else getAt d l m := by
  induction l generalizing n m with
  | nil => simp [setAt]
  | cons a t ih =>
    cases n with
    | zero =>
      cases m with
      | zero => simp [setAt, getAt]
      | succ j => simp [setAt, getAt]
    | succ i =>
      cases m with
      | zero => simp [setAt, getAt]
      | succ j =>
        simp only [setAt, getAt, ih, List.length_cons]
        by_cases hij : i = j
        · subst hij
          by_cases hl : i < t.length
          · rw [if_pos ⟨rfl, hl⟩, if_pos ⟨rfl, by omega⟩]
          · rw [if_neg (by omega), if_neg (by omega)]
        · rw [if_neg (by omega), if_neg (by omega)]

theorem getAt_mem {α : Type} (d : α) (l : List α) (n : Nat) (h : n < l.length) :
    getAt d l n ∈ l := by
  induction l generalizing n with
  | nil => simp at h
  | cons a t ih =>
    cases n with
    | zero => simp [getAt]
    | succ m => simp [getAt]; right; exact ih m (by simp at h; omega)

theorem mem_setAt {α : Type} {y : α} {l : List α} {n : Nat} {x : α}
    (h : y ∈ setAt l n x) : y ∈ l ∨ y = x := by
  induction l generalizing n with
  | nil => simp [setAt] at h
  | cons a t ih =>
    cases n with
    | zero =>
      simp [setAt] at h
      rcases h with h | h
      · right; exact h
      · left; simp [h]
    | succ m =>
      simp [setAt] at h
      rcases h with h | h
      · left; simp [h]
      · rcases ih h with h' | h'
        · left; simp [h']
        · right; exact h'


theorem set2d_eq (m : Mat) (r c x : Nat) :
    set2d m r c x = setAt m r (setAt (getAt [] m r) c x) := by
  induction m generalizing r with
  | nil => cases r <;> rfl
  | cons row rest ih =>
    cases r with
    | zero => rfl
    | succ n => simp [set2d, setAt, getAt, ih]

theorem get2d_set2d (m : Mat) (a b x i j : Nat) :
    get2d (set2d m a b x) i j =
      if i = a ∧ j = b ∧ a < m.length ∧ b < (getAt [] m a).length then x
      else get2d m i j := by
  rw [set2d_eq]
  unfold get2d
  rw [getAt_setAt]
  by_cases hia : a = i
  · subst hia
    by_cases hal : a < m.length
    · rw [if_pos ⟨rfl, hal⟩, getAt_setAt]
      by_cases hjb : b = j
      · subst hjb
        by_cases hbl : b < (getAt [] m a).length
        · rw [if_pos ⟨rfl, hbl⟩, if_pos ⟨rfl, rfl, hal, hbl⟩]
        · rw [if_neg (by tauto), if_neg (by tauto)]
      · rw [if_neg (by tauto), if_neg (fun hc => hjb hc.2.1.symm)]
    · rw [if_neg (by tauto), if_neg (by tauto)]
  · rw [if_neg (by tauto), if_neg (fun hc => hia hc.1.symm)]

theorem get2d_set2d_ne (m : Mat) {a b i j : Nat} (x : Nat) (h : ¬(i = a ∧ j = b)) :
    get2d (set2d m a b x) i j = get2d m i j := by
  rw [get2d_set2d]
  exact if_neg (fun hc => h ⟨hc.1, hc.2.1⟩)

theorem get2d_set2d_cases (m : Mat) (a b x i j : Nat) :
    get2d (set2d m a b x) i j = x ∨ get2d (set2d m a b x) i j = get2d m i j := by
  rw [get2d_set2d]; split
  · left; rfl
  · right; rfl

theorem get2d_ne_zero_lt (m : Mat) {a b : Nat} (h : get2d m a b ≠ 0) :
    a < m.length ∧ b < (getAt [] m a).length := by
  constructor
  · by_contra hl
    exact h (by unfold get2d; rw [getAt_of_length_le [] m a (by omega)]; rfl)
  · by_contra hl
    exact h (by unfold get2d; rw [getAt_of_length_le 0 _ b (by omega)])

theorem get2d_set2d_of_ne_zero (m : Mat) {a b : Nat} (x : Nat) (h : get2d m a b ≠ 0) :
    get2d (set2d m a b x) a b = x := by
  obtain ⟨h1, h2⟩ := get2d_ne_zero_lt m h
  rw [get2d_set2d]
  exact if_pos ⟨rfl, rfl, h1, h2⟩

theorem shaped_lt (m : Mat) {a b : Nat} (hm : shaped m) (ha : a < 9) (hb : b < 9) :
    a < m.length ∧ b < (getAt [] m a).length := by
  have h1 : a < m.length := by rw [hm.1]; exact ha
  refine ⟨h1, ?_⟩
  have := hm.2 (getAt [] m a) (getAt_mem [] m a h1)
  omega

theorem get2d_set2d_shaped (m : Mat) {a b : Nat} (x i j : Nat) (hm : shaped m)
    (ha : a < 9) (hb : b < 9) :
    get2d (set2d m a b x) i j = if i = a ∧ j = b then x else get2d m i j := by
  obtain ⟨h1, h2⟩ := shaped_lt m hm ha hb
  rw [get2d_set2d]
  by_cases hij : i = a ∧ j = b
  · rw [if_pos ⟨hij.1, hij.2, h1, h2⟩, if_pos hij]
  · rw [if_neg (fun hc => hij ⟨hc.1, hc.2.1⟩), if_neg hij]

theorem shaped_set2d (m : Mat) (a b x : Nat) (hm : shaped m) : shaped (set2d m a b x) := by
  rw [set2d_eq]
  by_cases hal : a < m.length
  · refine ⟨by rw [setAt_length]; exact hm.1, ?_⟩
    intro row hrow
    rcases mem_setAt hrow with h | h
    · exact hm.2 row h
    · subst h
      rw [setAt_length]
      exact hm.2 _ (getAt_mem [] m a hal)
  · rw [setAt_of_length_le m a _ (by omega)]
    exact hm

theorem foldl_preserve {α β : Type} {P : α → Prop} {f : α → β → α} {l : List β} {a : α}
    (hstep : ∀ x b, b ∈ l → P x → P (f x b)) (h0 : P a) : P (l.foldl f a) := by
  induction l generalizing a with
  | nil => exact h0
  | cons b t ih =>
    exact ih (fun x e he hx => hstep x e (List.mem_cons_of_mem _ he) hx)
      (hstep a b (List.mem_cons_self _ _) h0)

theorem and_and_self (x y : Nat) : x &&& y &&& y = x &&& y := by
  apply Nat.eq_of_testBit_eq
  intro i
  simp only [Nat.testBit_and]
  cases x.testBit i <;> cases y.testBit i <;> rfl

theorem ne_zero_of_and_ne_zero {x y : Nat} (h : x &&& y ≠ 0) : x ≠ 0 := by
  intro hx; subst hx; simp [Nat.zero_and] at h

theorem popcount_zero : popcount 0 = 0 := rfl

theorem popcountGo_ne_zero (f : Nat) : ∀ x, x ≠ 0 → x ≤ f → popcountGo f x ≠ 0 := by
  induction f with
  | zero => intro x hx hle; omega
  | succ g ih =>
    intro x hx hle
    rw [popcountGo, if_neg hx]
    by_cases h2 : x % 2 = 1
    · omega
    · have hx2 : x / 2 ≠ 0 := by omega
      have := ih (x / 2) hx2 (by omega)
      omega

theorem popcount_ne_zero {x : Nat} (h : x ≠ 0) : popcount x ≠ 0 :=
  popcountGo_ne_zero x x h le_rfl

theorem ne_zero_of_popcount_eq_one {x : Nat} (h : popcount x = 1) : x ≠ 0 := by
  intro hx; subst hx; simp [popcount_zero] at h

theorem getValsGo_ne_nil (f : Nat) : ∀ x v, x ≠ 0 → x ≤ f → getValsGo f x v ≠ [] := by
  induction f with
  | zero => intro x v hx hle; omega
  | succ g ih =>
    intro x v hx hle
    rw [getValsGo, if_neg hx]
    by_cases h2 : x % 2 = 1
    · simp [h2]
    · have hx2 : x / 2 ≠ 0 := by omega
      simp [h2]
      exact ih (x / 2) (v + 1) hx2 (by omega)

theorem get_vals_ne_nil {x : Nat} (h : x ≠ 0) : get_vals_as_list x ≠ [] :=
  getValsGo_ne_nil x x 1 h le_rfl

theorem mem_cells {p : Nat × Nat} : p ∈ cells ↔ p.1 < 9 ∧ p.2 < 9 := by
  obtain ⟨a, b⟩ := p
  constructor
  · intro h
    simp only [cells, List.mem_flatten, List.mem_map, List.mem_range] at h
    obtain ⟨l, ⟨r, hr, hl⟩, hmem⟩ := h
    subst hl
    simp only [List.mem_map, List.mem_range] at hmem
    obtain ⟨c, hc, heq⟩ := hmem
    cases heq
    exact ⟨hr, hc⟩
  · rintro ⟨ha, hb⟩
    simp only [cells, List.mem_flatten, List.mem_map, List.mem_range]
    refine ⟨(List.range 9).map (fun c => (a, c)), ⟨a, ha, rfl⟩, ?_⟩
    simp only [List.mem_map, List.mem_range]
    exact ⟨b, hb, rfl⟩

theorem get2d_set2d_cases2 (m : Mat) (a b x i j : Nat) :
    (get2d (set2d m a b x) i j = x ∧ i = a ∧ j = b) ∨
    get2d (set2d m a b x) i j = get2d m i j := by
  rw [get2d_set2d]
  by_cases hc : i = a ∧ j = b ∧ a < m.length ∧ b < (getAt [] m a).length
  · exact Or.inl ⟨if_pos hc, hc.1, hc.2.1⟩
  · exact Or.inr (if_neg hc)

theorem andMaskRow_zero {pv : Mat} {i j : Nat} (row k : Nat) (h : get2d pv i j = 0) :
    get2d (andMaskRow pv row k) i j = 0 := by
  unfold andMaskRow
  refine foldl_preserve (P := fun m => get2d m i j = 0) ?_ h
  intro m c _ hm
  rcases get2d_set2d_cases2 m row c (get2d m row c &&& k) i j with ⟨hv, hi, hj⟩ | hv
  · subst hi; subst hj; rw [hv, hm, Nat.zero_and]
  · rw [hv]; exact hm

theorem andMaskCol_zero {pv : Mat} {i j : Nat} (col k : Nat) (h : get2d pv i j = 0) :
    get2d (andMaskCol pv col k) i j = 0 := by
  unfold andMaskCol
  refine foldl_preserve (P := fun m => get2d m i j = 0) ?_ h
  intro m r _ hm
  rcases get2d_set2d_cases2 m r col (get2d m r col &&& k) i j with ⟨hv, hi, hj⟩ | hv
  · subst hi; subst hj; rw [hv, hm, Nat.zero_and]
  · rw [hv]; exact hm

theorem andMaskBox_zero {pv : Mat} {i j : Nat} (sr sc k : Nat) (h : get2d pv i j = 0) :
    get2d (andMaskBox pv sr sc k) i j = 0 := by
  unfold andMaskBox
  refine foldl_preserve (P := fun m => get2d m i j = 0) ?_ h
  intro m r _ hm
  refine foldl_preserve (P := fun m => get2d m i j = 0) ?_ hm
  intro m' c _ hm'
  rcases get2d_set2d_cases2 m' r c (get2d m' r c &&& k) i j with ⟨hv, hi, hj⟩ | hv
  · subst hi; subst hj; rw [hv, hm', Nat.zero_and]
  · rw [hv]; exact hm'

theorem andMaskRow_nz {pv : Mat} {i j : Nat} (row k : Nat)
    (h : get2d (andMaskRow pv row k) i j ≠ 0) : get2d pv i j ≠ 0 := by
  revert h
  unfold andMaskRow
  refine foldl_preserve (P := fun m => get2d m i j ≠ 0 → get2d pv i j ≠ 0) ?_ id
  intro m c _ hm hne
  rcases get2d_set2d_cases2 m row c (get2d m row c &&& k) i j with ⟨hv, hi, hj⟩ | hv
  · subst hi; subst hj; rw [hv] at hne; exact hm (ne_zero_of_and_ne_zero hne)
  · rw [hv] at hne; exact hm hne

theorem andMaskCol_nz {pv : Mat} {i j : Nat} (col k : Nat)
    (h : get2d (andMaskCol pv col k) i j ≠ 0) : get2d pv i j ≠ 0 := by
  revert h
  unfold andMaskCol
  refine foldl_preserve (P := fun m => get2d m i j ≠ 0 → get2d pv i j ≠ 0) ?_ id
  intro m r _ hm hne
  rcases get2d_set2d_cases2 m r col (get2d m r col &&& k) i j with ⟨hv, hi, hj⟩ | hv
  · subst hi; subst hj; rw [hv] at hne; exact hm (ne_zero_of_and_ne_zero hne)
  · rw [hv] at hne; exact hm hne

theorem andMaskBox_nz {pv : Mat} {i j : Nat} (sr sc k : Nat)
    (h : get2d (andMaskBox pv sr sc k) i j ≠ 0) : get2d pv i j ≠ 0 := by
  revert h
  unfold andMaskBox
  refine foldl_preserve (P := fun m => get2d m i j ≠ 0 → get2d pv i j ≠ 0) ?_ id
  intro m r _ hm
  refine foldl_preserve (P := fun m => get2d m i j ≠ 0 → get2d pv i j ≠ 0) ?_ hm
  intro m' c _ hm' hne
  rcases get2d_set2d_cases2 m' r c (get2d m' r c &&& k) i j with ⟨hv, hi, hj⟩ | hv
  · subst hi; subst hj; rw [hv] at hne; exact hm' (ne_zero_of_and_ne_zero hne)
  · rw [hv] at hne; exact hm' hne

theorem shaped_andMaskRow {pv : Mat} (row k : Nat) (h : shaped pv) :
    shaped (andMaskRow pv row k) :=
  foldl_preserve (fun m c _ hm => shaped_set2d m row c _ hm) h

theorem shaped_andMaskCol {pv : Mat} (col k : Nat) (h : shaped pv) :
    shaped (andMaskCol pv col k) :=
  foldl_preserve (fun m r _ hm => shaped_set2d m r col _ hm) h

theorem shaped_andMaskBox {pv : Mat} (sr sc k : Nat) (h : shaped pv) :
    shaped (andMaskBox pv sr sc k) :=
  foldl_preserve (fun m r _ hm =>
    foldl_preserve (fun m' c _ hm' => shaped_set2d m' r c _ hm') hm) h


theorem board_mk (a b : Mat) : (BoardState.mk a b).board = a := rfl

theorem pv_mk (a b : Mat) : (BoardState.mk a b).pv = b := rfl

theorem mvi_eq (bo pv : Mat) (r c v : Nat) :
    mark_value_invalid ⟨bo, pv⟩ r c v = ⟨bo, mviPv pv r c v⟩ := rfl

theorem place_eq (bo pv : Mat) (r c v : Nat) :
    place_value ⟨bo, pv⟩ r c v = ⟨set2d bo r c v, mviPv pv r c v⟩ := rfl

theorem mviPv_zero (pv : Mat) (r c v : Nat) {i j : Nat} (h : get2d pv i j = 0) :
    get2d (mviPv pv r c v) i j = 0 := by
  have h0 : get2d (set2d pv r c 0) i j = 0 := by
    rcases get2d_set2d_cases2 pv r c 0 i j with ⟨hv, _, _⟩ | hv
    · rw [hv]
    · rw [hv]; exact h
  simp only [mviPv]
  exact andMaskBox_zero _ _ _ (andMaskCol_zero _ _ (andMaskRow_zero _ _ h0))

theorem mviPv_nz (pv : Mat) (r c v : Nat) {i j : Nat}
    (h : get2d (mviPv pv r c v) i j ≠ 0) : get2d pv i j ≠ 0 := by
  simp only [mviPv] at h
  have h1 := andMaskRow_nz r _ (andMaskCol_nz c _ (andMaskBox_nz _ _ _ h))
  intro h0
  have hz : get2d (set2d pv r c 0) i j = 0 := by
    rcases get2d_set2d_cases2 pv r c 0 i j with ⟨hv, _, _⟩ | hv
    · rw [hv]
    · rw [hv]; exact h0
  exact h1 hz

theorem mviPv_self_zero (pv : Mat) (r c v : Nat)
    (h1 : r < pv.length) (h2 : c < (getAt [] pv r).length) :
    get2d (mviPv pv r c v) r c = 0 := by
  have h0 : get2d (set2d pv r c 0) r c = 0 := by
    rw [get2d_set2d]; exact if_pos ⟨rfl, rfl, h1, h2⟩
  simp only [mviPv]
  exact andMaskBox_zero _ _ _ (andMaskCol_zero _ _ (andMaskRow_zero _ _ h0))

theorem shaped_mviPv (pv : Mat) (r c v : Nat) (h : shaped pv) :
    shaped (mviPv pv r c v) := by
  simp only [mviPv]
  exact shaped_andMaskBox _ _ _
    (shaped_andMaskCol _ _ (shaped_andMaskRow _ _ (shaped_set2d _ r c _ h)))

theorem ffold_true_flag (l : List (Nat × Nat)) (p : BoardState × Bool) (hp : p.2 = true) :
    (l.foldl ffStep p).2 = true := by
  refine foldl_preserve (P := fun (q : BoardState × Bool) => q.2 = true) ?_ hp
  intro x b _ hx
  obtain ⟨s, flag⟩ := x
  simp only at hx
  subst hx
  simp only [ffStep]
  split
  · rfl
  · rfl

theorem ffStep_false_cases (s : BoardState) (b : Nat × Nat) :
    ffStep (s, false) b = (s, false) ∨
    (popcount (get2d s.pv b.1 b.2) = 1 ∧
      ffStep (s, false) b =
        (place_value s b.1 b.2 ((get_vals_as_list (get2d s.pv b.1 b.2)).headD 0), true)) := by
  simp only [ffStep]
  by_cases hpc : popcount (get2d s.pv b.1 b.2) = 1
  · right; exact ⟨hpc, by rw [if_pos hpc]⟩
  · left; rw [if_neg hpc]

theorem ffold_false_eq (l : List (Nat × Nat)) : ∀ (s : BoardState),
    (l.foldl ffStep (s, false)).2 = false → l.foldl ffStep (s, false) = (s, false) := by
  induction l with
  | nil => intro s _; rfl
  | cons b t ih =>
    intro s h
    rw [List.foldl_cons] at h ⊢
    rcases ffStep_false_cases s b with hc | ⟨hpc, hc⟩
    · rw [hc] at h ⊢; exact ih s h
    · rw [hc] at h
      rw [ffold_true_flag t _ rfl] at h
      exact absurd h (by simp)

theorem onePass_false_eq (s : BoardState) (h : (onePass s).2 = false) :
    onePass s = (s, false) := ffold_false_eq cells s h

theorem fastForwardGo_succ (f : Nat) (s : BoardState) :
    fastForwardGo (f + 1) s =
      if (onePass s).2 then fastForwardGo f (onePass s).1 else (onePass s).1 := rfl

theorem place_value_pv_nz (s : BoardState) (a b v : Nat) {i j : Nat}
    (h : get2d (place_value s a b v).pv i j ≠ 0) : get2d s.pv i j ≠ 0 := by
  obtain ⟨bo, pv⟩ := s
  rw [place_eq, pv_mk] at h
  simp only
  exact mviPv_nz pv a b v h

theorem place_value_pv_zero (s : BoardState) (a b v : Nat) {i j : Nat}
    (h : get2d s.pv i j = 0) : get2d (place_value s a b v).pv i j = 0 := by
  obtain ⟨bo, pv⟩ := s
  rw [place_eq, pv_mk]
  simp only at h
  exact mviPv_zero pv a b v h

theorem place_value_pv_self_zero (s : BoardState) (a b v : Nat) (h : get2d s.pv a b ≠ 0) :
    get2d (place_value s a b v).pv a b = 0 := by
  obtain ⟨bo, pv⟩ := s
  rw [place_eq, pv_mk]
  simp only at h
  exact mviPv_self_zero pv a b v (get2d_ne_zero_lt pv h).1 (get2d_ne_zero_lt pv h).2

theorem place_value_board_ne (s : BoardState) (a b v : Nat) {i j : Nat}
    (h : ¬(i = a ∧ j = b)) : get2d (place_value s a b v).board i j = get2d s.board i j := by
  obtain ⟨bo, pv⟩ := s
  rw [place_eq, board_mk]
  simp only
  exact get2d_set2d_ne bo v h

theorem countNZ_mono (s t : BoardState)
    (h : ∀ i j, i < 9 → j < 9 → get2d t.pv i j ≠ 0 → get2d s.pv i j ≠ 0) :
    countNZ t ≤ countNZ s := by
  apply Finset.card_le_card
  intro p hp
  simp only [Finset.mem_filter, Finset.mem_product, Finset.mem_range] at hp ⊢
  exact ⟨hp.1, h p.1 p.2 hp.1.1 hp.1.2 hp.2⟩

theorem countNZ_place_le (s : BoardState) (a b v : Nat) :
    countNZ (place_value s a b v) ≤ countNZ s :=
  countNZ_mono _ _ (fun _ _ _ _ h => place_value_pv_nz s a b v h)

theorem countNZ_place_lt (s : BoardState) {a b : Nat} (v : Nat) (ha : a < 9) (hb : b < 9)
    (h : get2d s.pv a b ≠ 0) : countNZ (place_value s a b v) < countNZ s := by
  apply Finset.card_lt_card
  constructor
  · intro p hp
    simp only [Finset.mem_filter, Finset.mem_product, Finset.mem_range] at hp ⊢
    exact ⟨hp.1, place_value_pv_nz s a b v hp.2⟩
  · intro hcon
    have hmem : (a, b) ∈ (Finset.range 9 ×ˢ Finset.range 9).filter
        (fun p => get2d s.pv p.1 p.2 ≠ 0) := by
      simp only [Finset.mem_filter, Finset.mem_product, Finset.mem_range]
      exact ⟨⟨ha, hb⟩, h⟩
    have := hcon hmem
    simp only [Finset.mem_filter, Finset.mem_product, Finset.mem_range] at this
    exact this.2 (place_value_pv_self_zero s a b v h)

theorem countNZ_le_81 (s : BoardState) : countNZ s ≤ 81 := by
  have h := Finset.card_filter_le (Finset.range 9 ×ˢ Finset.range 9)
    (fun p => get2d s.pv p.1 p.2 ≠ 0)
  simpa using h

theorem ffold_count_le (l : List (Nat × Nat)) : ∀ (p : BoardState × Bool),
    countNZ (l.foldl ffStep p).1 ≤ countNZ p.1 := by
  induction l with
  | nil => intro p; exact le_rfl
  | cons b t ih =>
    intro p
    rw [List.foldl_cons]
    refine le_trans (ih (ffStep p b)) ?_
    obtain ⟨s, flag⟩ := p
    simp only [ffStep]
    split
    · exact countNZ_place_le s b.1 b.2 _
    · exact le_rfl

theorem ffold_false_decrease (l : List (Nat × Nat)) :
    ∀ (s s' : BoardState), (∀ b ∈ l, b.1 < 9 ∧ b.2 < 9) →
      l.foldl ffStep (s, false) = (s', true) → countNZ s' < countNZ s := by
  induction l with
  | nil =>
    intro s s' _ h
    simp at h
  | cons b t ih =>
    intro s s' hl h
    rw [List.foldl_cons] at h
    rcases ffStep_false_cases s b with hc | ⟨hpc, hc⟩
    · rw [hc] at h
      exact ih s s' (fun x hx => hl x (List.mem_cons_of_mem _ hx)) h
    · rw [hc] at h
      have hb := hl b (List.mem_cons_self _ _)
      have hnz : get2d s.pv b.1 b.2 ≠ 0 := by
        intro h0
        rw [h0] at hpc
        simp [popcount_zero] at hpc
      have h1 := countNZ_place_lt s
        ((get_vals_as_list (get2d s.pv b.1 b.2)).headD 0) hb.1 hb.2 hnz
      have h2 := ffold_count_le t
        (place_value s b.1 b.2 ((get_vals_as_list (get2d s.pv b.1 b.2)).headD 0), true)
      rw [h] at h2
      simp only at h2
      omega

theorem onePass_eq (s : BoardState) : onePass s = cells.foldl ffStep (s, false) := by
  unfold onePass
  rfl

theorem onePass_decrease (s : BoardState) (h : (onePass s).2 = true) :
    countNZ (onePass s).1 < countNZ s := by
  have hofs : onePass s = ((onePass s).1, (onePass s).2) := Prod.mk.eta.symm
  rw [h] at hofs
  rw [onePass_eq] at hofs
  exact ffold_false_decrease cells s ((onePass s).1) (fun b hb => mem_cells.mp hb) hofs

theorem ffgo_fixpoint : ∀ (f : Nat) (s : BoardState), countNZ s < f →
    onePass (fastForwardGo f s) = (fastForwardGo f s, false) := by
  intro f
  induction f with
  | zero => intro s h; omega
  | succ g ih =>
    intro s h
    rw [fastForwardGo_succ]
    cases hp : (onePass s).2 with
    | false =>
      rw [if_neg (by simp [hp])]
      have he := onePass_false_eq s hp
      rw [he]
      show onePass s = (s, false)
      exact he
    | true =>
      rw [if_pos (by simp [hp])]
      apply ih
      have hd := onePass_decrease s hp
      omega

/-- C8: fast_forward reaches a fixed point in one call: a second
consecutive call makes no placement and returns the state unchanged, for
every board state.  The final scan of the first call found no
single-candidate cell, so the first scan of the second call finds none
either. -/
theorem c8_fast_forward_fixed_point (s : BoardState) :
    fast_forward (fast_forward s) = fast_forward s := by
  have hfix := ffgo_fixpoint 82 s (by have := countNZ_le_81 s; omega)
  have hfix' : onePass (fast_forward s) = (fast_forward s, false) := hfix
  show fastForwardGo 82 (fast_forward s) = fast_forward s
  have h81 : (82 : Nat) = 81 + 1 := rfl
  rw [h81, fastForwardGo_succ, hfix']
  simp

theorem keepsAt_place (r c w : Nat) (s : BoardState) (a b v : Nat)
    (hne : ¬(a = r ∧ b = c)) (hk : keepsAt r c w s) : keepsAt r c w (place_value s a b v) := by
  constructor
  · rw [place_value_board_ne s a b v (fun hc => hne ⟨hc.1.symm, hc.2.symm⟩)]
    exact hk.1
  · exact place_value_pv_zero s a b v hk.2

theorem keepsAt_ffStep (r c w : Nat) (p : BoardState × Bool) (b : Nat × Nat)
    (hk : keepsAt r c w p.1) : keepsAt r c w (ffStep p b).1 := by
  obtain ⟨s, flag⟩ := p
  simp only at hk
  simp only [ffStep]
  split
  · next hpc =>
    simp only
    refine keepsAt_place r c w s b.1 b.2 _ ?_ hk
    intro hc
    rw [hc.1, hc.2, hk.2] at hpc
    simp [popcount_zero] at hpc
  · exact hk

theorem keepsAt_onePass (r c w : Nat) (s : BoardState) (hk : keepsAt r c w s) :
    keepsAt r c w (onePass s).1 := by
  rw [onePass_eq]
  exact foldl_preserve (P := fun (p : BoardState × Bool) => keepsAt r c w p.1)
    (fun x b _ hx => keepsAt_ffStep r c w x b hx) hk

theorem keepsAt_ffgo (r c w : Nat) : ∀ (f : Nat) (s : BoardState),
    keepsAt r c w s → keepsAt r c w (fastForwardGo f s) := by
  intro f
  induction f with
  | zero => intro s hk; exact hk
  | succ g ih =>
    intro s hk
    rw [fastForwardGo_succ]
    split
    · exact ih _ (keepsAt_onePass r c w s hk)
    · exact keepsAt_onePass r c w s hk

theorem keepsAt_fast_forward (r c w : Nat) (s : BoardState) (hk : keepsAt r c w s) :
    keepsAt r c w (fast_forward s) := keepsAt_ffgo r c w 82 s hk

theorem minStep_aux (l : List (Nat × Nat × Nat × List Nat)) :
    ∀ (acc : Option (Nat × Nat × Nat × List Nat)) (x),
      l.foldl minStepPick acc = some x → x ∈ l ∨ acc = some x := by
  induction l with
  | nil => intro acc x h; exact Or.inr h
  | cons b t ih =>
    intro acc x h
    rw [List.foldl_cons] at h
    rcases ih (minStepPick acc b) x h with h1 | h1
    · exact Or.inl (List.mem_cons_of_mem _ h1)
    · cases acc with
      | none =>
        simp only [minStepPick, Option.some.injEq] at h1
        exact Or.inl (h1 ▸ List.mem_cons_self _ _)
      | some m =>
        simp only [minStepPick] at h1
        split at h1
        · simp only [Option.some.injEq] at h1
          exact Or.inl (h1 ▸ List.mem_cons_self _ _)
        · exact Or.inr h1

theorem minStep_mem {l : List (Nat × Nat × Nat × List Nat)} {x}
    (h : minStep l = some x) : x ∈ l := by
  rcases minStep_aux l none x h with h1 | h1
  · exact h1
  · simp at h1

theorem minStep_some_aux (l : List (Nat × Nat × Nat × List Nat)) :
    ∀ (m : Nat × Nat × Nat × List Nat), ∃ y, l.foldl minStepPick (some m) = some y := by
  induction l with
  | nil => intro m; exact ⟨m, rfl⟩
  | cons b t ih =>
    intro m
    rw [List.foldl_cons]
    simp only [minStepPick]
    split
    · exact ih b
    · exact ih m

theorem minStep_eq_none_iff (l : List (Nat × Nat × Nat × List Nat)) :
    minStep l = none ↔ l = [] := by
  constructor
  · intro h
    cases l with
    | nil => rfl
    | cons b t =>
      exfalso
      have hb : minStep (b :: t) = t.foldl minStepPick (some b) := rfl
      obtain ⟨y, hy⟩ := minStep_some_aux t b
      rw [hb, hy] at h
      exact Option.noConfusion h
  · intro h; subst h; rfl

theorem scored_mem {s : BoardState} {x} (hx : x ∈ get_scored_next_steps s) :
    x = (popcount (get2d s.pv x.2.1 x.2.2.1), x.2.1, x.2.2.1,
        get_vals_as_list (get2d s.pv x.2.1 x.2.2.1)) ∧
      get2d s.pv x.2.1 x.2.2.1 ≠ 0 ∧ x.2.1 < 9 ∧ x.2.2.1 < 9 := by
  unfold get_scored_next_steps at hx
  obtain ⟨rc, hrc, h2⟩ := List.mem_filterMap.mp hx
  by_cases hpc : popcount (get2d s.pv rc.1 rc.2) ≠ 0
  · rw [if_pos hpc] at h2
    obtain rfl := Option.some.inj h2
    have hb := mem_cells.mp hrc
    refine ⟨rfl, ?_, hb.1, hb.2⟩
    intro h0
    rw [h0] at hpc
    exact hpc popcount_zero
  · rw [if_neg hpc] at h2
    exact Option.noConfusion h2

theorem keepsAt_children (r c w : Nat) (s : BoardState) (hk : keepsAt r c w s) :
    ∀ ch ∈ create_children s, keepsAt r c w ch := by
  intro ch hch
  unfold create_children at hch
  cases hmin : minStep (get_scored_next_steps s) with
  | none => rw [hmin] at hch; simp at hch
  | some e =>
    rw [hmin] at hch
    obtain ⟨pc, row, col, choices⟩ := e
    simp only [List.mem_map] at hch
    obtain ⟨v, _, hv⟩ := hch
    subst hv
    have hm := scored_mem (minStep_mem hmin)
    have hnz : get2d s.pv row col ≠ 0 := hm.2.1
    refine keepsAt_fast_forward r c w _ (keepsAt_place r c w s row col v ?_ hk)
    intro hc
    rw [hc.1, hc.2] at hnz
    exact hnz hk.2

theorem mvi_board (s : BoardState) (a b v : Nat) :
    (mark_value_invalid s a b v).board = s.board := by
  obtain ⟨bo, pv⟩ := s
  rw [mvi_eq, board_mk]

theorem mvi_pv_zero_cell (s : BoardState) (a b v : Nat) {i j : Nat}
    (h : get2d s.pv i j = 0) : get2d (mark_value_invalid s a b v).pv i j = 0 := by
  obtain ⟨bo, pv⟩ := s
  rw [mvi_eq, pv_mk]
  exact mviPv_zero pv a b v h

theorem shaped_mvi (s : BoardState) (a b v : Nat) (h : shaped s.pv) :
    shaped (mark_value_invalid s a b v).pv := by
  obtain ⟨bo, pv⟩ := s
  rw [mvi_eq, pv_mk]
  exact shaped_mviPv pv a b v h

theorem mvi_pv_self_zero_state (s : BoardState) (a b v : Nat) (hsh : shaped s.pv)
    (ha : a < 9) (hb : b < 9) : get2d (mark_value_invalid s a b v).pv a b = 0 := by
  obtain ⟨bo, pv⟩ := s
  rw [mvi_eq, pv_mk]
  exact mviPv_self_zero pv a b v (shaped_lt pv hsh ha hb).1 (shaped_lt pv hsh ha hb).2

theorem ctorStep_pos (s : BoardState) (rc : Nat × Nat)
    (h : get2d s.board rc.1 rc.2 ≠ 0) :
    ctorStep s rc = mark_value_invalid s rc.1 rc.2 (get2d s.board rc.1 rc.2) := by
  unfold ctorStep
  rw [if_pos h]

theorem ctorStep_board (s : BoardState) (rc : Nat × Nat) :
    (ctorStep s rc).board = s.board := by
  unfold ctorStep
  split
  · exact mvi_board s rc.1 rc.2 _
  · rfl

theorem ctorStep_pv_zero (s : BoardState) (rc : Nat × Nat) {i j : Nat}
    (h : get2d s.pv i j = 0) : get2d (ctorStep s rc).pv i j = 0 := by
  unfold ctorStep
  split
  · exact mvi_pv_zero_cell s rc.1 rc.2 _ h
  · exact h

theorem ctorStep_shaped (s : BoardState) (rc : Nat × Nat) (h : shaped s.pv) :
    shaped (ctorStep s rc).pv := by
  unfold ctorStep
  split
  · exact shaped_mvi s rc.1 rc.2 _ h
  · exact h

theorem shaped_pvInit : shaped pvInit := by
  constructor
  · rfl
  · intro row hrow
    simp only [pvInit, List.mem_replicate] at hrow
    rw [hrow.2]
    rfl

theorem mkState_board (g : Mat) : (mkState g).board = g := by
  unfold mkState
  exact foldl_preserve (P := fun (s : BoardState) => s.board = g)
    (fun x b _ hx => by show (ctorStep x b).board = g; rw [ctorStep_board]; exact hx) rfl

theorem mkState_keeps (g : Mat) (r c : Nat) (hr : r < 9) (hc : c < 9)
    (hw : get2d g r c ≠ 0) : keepsAt r c (get2d g r c) (mkState g) := by
  refine ⟨by rw [mkState_board], ?_⟩
  obtain ⟨l1, l2, hsplit⟩ :=
    List.append_of_mem (mem_cells.mpr ⟨hr, hc⟩ : ((r, c) : Nat × Nat) ∈ cells)
  unfold mkState
  rw [hsplit, List.foldl_append, List.foldl_cons]
  have hinv : (l1.foldl ctorStep ⟨g, pvInit⟩).board = g ∧
      shaped (l1.foldl ctorStep ⟨g, pvInit⟩).pv :=
    foldl_preserve (P := fun (s : BoardState) => s.board = g ∧ shaped s.pv)
      (fun x b _ hx => ⟨by show (ctorStep x b).board = g; rw [ctorStep_board]; exact hx.1,
        ctorStep_shaped x b hx.2⟩)
      ⟨rfl, shaped_pvInit⟩
  have hguard : get2d (l1.foldl ctorStep ⟨g, pvInit⟩).board r c ≠ 0 := by
    rw [hinv.1]; exact hw
  have hstep : get2d (ctorStep (l1.foldl ctorStep ⟨g, pvInit⟩) (r, c)).pv r c = 0 := by
    rw [ctorStep_pos _ _ hguard]
    exact mvi_pv_self_zero_state _ r c _ hinv.2 hr hc
  exact foldl_preserve (P := fun (s : BoardState) => get2d s.pv r c = 0)
    (fun x b _ hx => ctorStep_pv_zero x b hx) hstep

theorem pickGo_mem (lt : BoardState → BoardState → Bool) (l : List (Nat × BoardState)) :
    ∀ (i : Nat) (best : Nat × (Nat × BoardState)),
      (pickGo lt l i best).2 = best.2 ∨ (pickGo lt l i best).2 ∈ l := by
  induction l with
  | nil => intro i best; exact Or.inl rfl
  | cons e t ih =>
    intro i best
    simp only [pickGo]
    split
    · rcases ih (i + 1) (i, e) with h | h
      · right; rw [h]; exact List.mem_cons_self _ _
      · right; exact List.mem_cons_of_mem _ h
    · rcases ih (i + 1) best with h | h
      · left; exact h
      · right; exact List.mem_cons_of_mem _ h

theorem popQueue_mem (lt : BoardState → BoardState → Bool) (q : List (Nat × BoardState))
    (e : Nat × BoardState) (q' : List (Nat × BoardState))
    (h : popQueue lt q = some (e, q')) : e ∈ q ∧ ∀ x ∈ q', x ∈ q := by
  cases q with
  | nil => exact absurd h (by simp [popQueue])
  | cons b rest =>
    simp only [popQueue, Option.some.injEq, Prod.mk.injEq] at h
    obtain ⟨he, hq⟩ := h
    constructor
    · rw [← he]
      rcases pickGo_mem lt rest 1 (0, b) with h1 | h1
      · rw [h1]; exact List.mem_cons_self _ _
      · exact List.mem_cons_of_mem _ h1
    · intro x hx
      rw [← hq] at hx
      exact List.eraseIdx_subset _ _ hx

theorem loopBody_spec (lt : BoardState → BoardState → Bool) (q : List (Nat × BoardState))
    (vis : List (List Nat)) (s : BoardState) (q2 : List (Nat × BoardState))
    (v2 : List (List Nat)) (h : loopBody lt q vis = some (s, q2, v2)) :
    (∃ e ∈ q, e.2 = s) ∧
    (∀ x ∈ q2, x ∈ q ∨ ∃ ch ∈ create_children s, x = (get_dist_to_goal ch, ch)) := by
  unfold loopBody at h
  cases hpop : popQueue lt q with
  | none => rw [hpop] at h; exact Option.noConfusion h
  | some p =>
    rw [hpop] at h
    obtain ⟨e, q'⟩ := p
    simp only [Option.some.injEq, Prod.mk.injEq] at h
    obtain ⟨hs, hq2, _⟩ := h
    have hpm := popQueue_mem lt q e q' hpop
    constructor
    · exact ⟨e, hpm.1, hs⟩
    · intro x hx
      rw [← hq2] at hx
      rcases List.mem_append.mp hx with hx1 | hx1
      · exact Or.inl (hpm.2 x hx1)
      · right
        obtain ⟨ch, hch, hch2⟩ := List.mem_filterMap.mp hx1
        refine ⟨ch, by rw [← hs]; exact hch, ?_⟩
        by_cases hk : boardKey ch ∈ boardKey e.2 :: vis
        · rw [if_pos hk] at hch2; exact Option.noConfusion hch2
        · rw [if_neg hk] at hch2; exact (Option.some.inj hch2).symm

theorem solveGo_zero (lt : BoardState → BoardState → Bool) (cur : BoardState)
    (q : List (Nat × BoardState)) (vis : List (List Nat)) :
    solveGo lt 0 cur q vis = if is_complete cur || q.isEmpty then some cur else none := rfl

theorem solveGo_succ (lt : BoardState → BoardState → Bool) (f : Nat) (cur : BoardState)
    (q : List (Nat × BoardState)) (vis : List (List Nat)) :
    solveGo lt (f + 1) cur q vis =
      if is_complete cur || q.isEmpty then some cur
      else
        match loopBody lt q vis with
        | none => some cur
        | some (s, q2, vis2) => solveGo lt f s q2 vis2 := rfl

theorem solveGo_keeps (r c w : Nat) (lt : BoardState → BoardState → Bool) :
    ∀ (fuel : Nat) (cur : BoardState) (q : List (Nat × BoardState)) (vis : List (List Nat))
      (res : BoardState), keepsAt r c w cur → (∀ e ∈ q, keepsAt r c w e.2) →
      solveGo lt fuel cur q vis = some res → keepsAt r c w res := by
  intro fuel
  induction fuel with
  | zero =>
    intro cur q vis res hc hq h
    rw [solveGo_zero] at h
    split at h
    · exact Option.some.inj h ▸ hc
    · exact Option.noConfusion h
  | succ g ih =>
    intro cur q vis res hc hq h
    rw [solveGo_succ] at h
    split at h
    · exact Option.some.inj h ▸ hc
    · cases hlb : loopBody lt q vis with
      | none =>
        rw [hlb] at h
        exact Option.some.inj h ▸ hc
      | some t =>
        rw [hlb] at h
        obtain ⟨s, q2, v2⟩ := t
        obtain ⟨⟨e, he, hes⟩, hq2⟩ := loopBody_spec lt q vis s q2 v2 hlb
        have hs : keepsAt r c w s := hes ▸ hq e he
        refine ih s q2 v2 res hs ?_ h
        intro x hx
        rcases hq2 x hx with hx1 | ⟨ch, hch, hx2⟩
        · exact hq x hx1
        · rw [hx2]; exact keepsAt_children r c w s hs ch hch

/-- Unfolding of solve into its search-loop form. -/
theorem solve_eq (lt : BoardState → BoardState → Bool) (fuel : Nat) (g : Mat) :
    solve lt fuel g = solveGo lt fuel (fast_forward (mkState g))
      [(get_dist_to_goal (fast_forward (mkState g)), fast_forward (mkState g))] [] := by
  simp only [solve]

/-- C10: given cells are invariant.  For every input grid and every cell
that is non-zero in it, whenever solve returns a state, that state still
holds the given value at the cell: the constructor empties the candidate
set of every given cell, candidate sets never regain members, and every
placement made by fast_forward or by branching targets a cell whose
candidate set is non-empty, so no reachable search state ever overwrites a
given. -/
theorem c10_given_cells_invariant (g : Mat) (r c : Nat) (hr : r < 9) (hc : c < 9)
    (hw : get2d g r c ≠ 0) (lt : BoardState → BoardState → Bool) (fuel : Nat)
    (res : BoardState) (hres : solve lt fuel g = some res) :
    get2d res.board r c = get2d g r c := by
  have h1 := keepsAt_fast_forward r c (get2d g r c) _ (mkState_keeps g r c hr hc hw)
  rw [solve_eq] at hres
  generalize hS : fast_forward (mkState g) = S at h1 hres
  refine (solveGo_keeps r c (get2d g r c) lt fuel _ _ _ res h1 ?_ hres).1
  intro e he
  rcases List.mem_singleton.mp he with rfl
  exact h1

theorem shaped_maskFold (m : Nat) (P : List (Nat × Nat)) (pv : Mat) (h : shaped pv) :
    shaped (maskFold m P pv) :=
  foldl_preserve (P := fun x => shaped x) (fun x b _ hx => shaped_set2d _ _ _ _ hx) h

theorem maskFold_not_mem (m i j : Nat) :
    ∀ (P : List (Nat × Nat)) (pv : Mat), (i, j) ∉ P →
      get2d (maskFold m P pv) i j = get2d pv i j := by
  intro P
  induction P with
  | nil => intro pv _; rfl
  | cons a t ih =>
    intro pv hmem
    have hstep : maskFold m (a :: t) pv =
        maskFold m t (set2d pv a.1 a.2 (get2d pv a.1 a.2 &&& m)) := rfl
    rw [hstep, ih _ (fun h => hmem (List.mem_cons_of_mem _ h))]
    refine get2d_set2d_ne _ _ (fun hc => hmem (List.mem_cons.mpr (Or.inl ?_)))
    exact Prod.ext_iff.mpr ⟨hc.1, hc.2⟩

theorem maskFold_mem (m i j : Nat) :
    ∀ (P : List (Nat × Nat)) (pv : Mat), shaped pv → i < 9 → j < 9 →
      (∀ rc ∈ P, rc.1 < 9 ∧ rc.2 < 9) → (i, j) ∈ P →
      get2d (maskFold m P pv) i j = get2d pv i j &&& m := by
  intro P
  induction P with
  | nil => intro pv _ _ _ _ hmem; exact absurd hmem (List.not_mem_nil _)
  | cons a t ih =>
    intro pv hsh hi hj hbp hmem
    have hab := hbp a (List.mem_cons_self _ _)
    have hsh2 : shaped (set2d pv a.1 a.2 (get2d pv a.1 a.2 &&& m)) :=
      shaped_set2d _ _ _ _ hsh
    have hstep : maskFold m (a :: t) pv =
        maskFold m t (set2d pv a.1 a.2 (get2d pv a.1 a.2 &&& m)) := rfl
    rw [hstep]
    by_cases hat : (i, j) ∈ t
    · rw [ih _ hsh2 hi hj (fun rc hrc => hbp rc (List.mem_cons_of_mem _ hrc)) hat,
        get2d_set2d_shaped _ _ i j hsh hab.1 hab.2]
      split
      next heq => rw [heq.1, heq.2]; exact and_and_self _ _
      next => rfl
    · have ha : a = (i, j) := by
        rcases List.mem_cons.mp hmem with h | h
        · exact h.symm
        · exact absurd h hat
      subst ha
      rw [maskFold_not_mem m i j t _ hat,
        get2d_set2d_shaped _ _ i j hsh hab.1 hab.2, if_pos ⟨rfl, rfl⟩]

theorem maskFold_get (m : Nat) (P : List (Nat × Nat)) (pv : Mat) (i j : Nat)
    (hsh : shaped pv) (hi : i < 9) (hj : j < 9)
    (hbp : ∀ rc ∈ P, rc.1 < 9 ∧ rc.2 < 9) :
    get2d (maskFold m P pv) i j =
      if (i, j) ∈ P then get2d pv i j &&& m else get2d pv i j := by
  split
  next h => exact maskFold_mem m i j P pv hsh hi hj hbp h
  next h => exact maskFold_not_mem m i j P pv h

theorem andMaskRow_eq (pv : Mat) (row m : Nat) :
    andMaskRow pv row m = maskFold m ((List.range 9).map fun c => (row, c)) pv := by
  unfold andMaskRow maskFold
  rw [List.foldl_map]

theorem andMaskCol_eq (pv : Mat) (col m : Nat) :
    andMaskCol pv col m = maskFold m ((List.range 9).map fun r => (r, col)) pv := by
  unfold andMaskCol maskFold
  rw [List.foldl_map]

theorem nested_foldl_eq {α : Type} (g : α → Nat × Nat → α) (L2 : List Nat) :
    ∀ (L1 : List Nat) (init : α),
      L1.foldl (fun a r => L2.foldl (fun a c => g a (r, c)) a) init =
        ((L1.map fun r => L2.map fun c => (r, c)).flatten).foldl g init := by
  intro L1
  induction L1 with
  | nil => intro init; rfl
  | cons r t ih =>
    intro init
    rw [List.foldl_cons, List.map_cons, List.flatten_cons, List.foldl_append, ← ih,
      List.foldl_map]

theorem andMaskBox_eq (pv : Mat) (rs cs m : Nat) :
    andMaskBox pv rs cs m =
      maskFold m (((List.range' rs 3).map fun r =>
        (List.range' cs 3).map fun c => (r, c)).flatten) pv := by
  unfold andMaskBox maskFold
  rw [← nested_foldl_eq]

theorem mem_rowCells {row i j : Nat} :
    ((i, j) ∈ (List.range 9).map fun c => (row, c)) ↔ i = row ∧ j < 9 := by
  constructor
  · intro h
    obtain ⟨c, hc, heq⟩ := List.mem_map.mp h
    injection heq with h1 h2
    subst h1; subst h2
    exact ⟨rfl, List.mem_range.mp hc⟩
  · rintro ⟨rfl, hj⟩
    exact List.mem_map.mpr ⟨j, List.mem_range.mpr hj, rfl⟩

theorem mem_colCells {col i j : Nat} :
    ((i, j) ∈ (List.range 9).map fun r => (r, col)) ↔ j = col ∧ i < 9 := by
  constructor
  · intro h
    obtain ⟨r, hr, heq⟩ := List.mem_map.mp h
    injection heq with h1 h2
    subst h1; subst h2
    exact ⟨rfl, List.mem_range.mp hr⟩
  · rintro ⟨rfl, hi⟩
    exact List.mem_map.mpr ⟨i, List.mem_range.mpr hi, rfl⟩

theorem mem_boxCells {rs cs i j : Nat} :
    ((i, j) ∈ ((List.range' rs 3).map fun r =>
        (List.range' cs 3).map fun c => (r, c)).flatten) ↔
      (rs ≤ i ∧ i < rs + 3) ∧ (cs ≤ j ∧ j < cs + 3) := by
  simp only [List.mem_flatten, List.mem_map]
  constructor
  · rintro ⟨l, ⟨r, hr, rfl⟩, hj⟩
    obtain ⟨c, hc, heq⟩ := List.mem_map.mp hj
    injection heq with h1 h2
    subst h1; subst h2
    exact ⟨List.mem_range'_1.mp hr, List.mem_range'_1.mp hc⟩
  · rintro ⟨hi, hj⟩
    exact ⟨(List.range' cs 3).map fun c => (i, c), ⟨i, List.mem_range'_1.mpr hi, rfl⟩,
      List.mem_map.mpr ⟨j, List.mem_range'_1.mpr hj, rfl⟩⟩

theorem rowCells_bounded {row : Nat} (hrow : row < 9) :
    ∀ rc ∈ (List.range 9).map fun c => (row, c), rc.1 < 9 ∧ rc.2 < 9 := by
  intro rc hrc
  obtain ⟨c, hc, rfl⟩ := List.mem_map.mp hrc
  exact ⟨hrow, List.mem_range.mp hc⟩

theorem colCells_bounded {col : Nat} (hcol : col < 9) :
    ∀ rc ∈ (List.range 9).map fun r => (r, col), rc.1 < 9 ∧ rc.2 < 9 := by
  intro rc hrc
  obtain ⟨r, hr, rfl⟩ := List.mem_map.mp hrc
  exact ⟨List.mem_range.mp hr, hcol⟩

theorem boxCells_bounded {r c : Nat} (hr : r < 9) (hc : c < 9) :
    ∀ rc ∈ ((List.range' (3 * (r / 3)) 3).map fun a =>
        (List.range' (3 * (c / 3)) 3).map fun b => (a, b)).flatten,
      rc.1 < 9 ∧ rc.2 < 9 := by
  intro rc hrc
  obtain ⟨i, j⟩ := rc
  have h := mem_boxCells.mp hrc
  omega

/-- Full description of the candidate-matrix update of mark_value_invalid:
the cell itself is cleared, every other cell of the same row, column or 3x3
square is masked with the complement of the single-bit mask for the value,
and every remaining cell is untouched. -/
theorem mviPv_get (pv : Mat) (r c v i j : Nat) (hp : shaped pv)
    (hr : r < 9) (hc : c < 9) (hi : i < 9) (hj : j < 9) :
    get2d (mviPv pv r c v) i j =
      if i = r ∧ j = c then 0
      else if i = r ∨ j = c ∨ (i / 3 = r / 3 ∧ j / 3 = c / 3) then
        get2d pv i j &&& (511 - (1 <<< (v - 1)))
      else get2d pv i j := by
  have e1 : mviPv pv r c v =
      andMaskBox (andMaskCol (andMaskRow (set2d pv r c 0) r (511 - (1 <<< (v - 1)))) c
        (511 - (1 <<< (v - 1)))) (3 * (r / 3)) (3 * (c / 3)) (511 - (1 <<< (v - 1))) := rfl
  have hsh0 : shaped (set2d pv r c 0) := shaped_set2d _ _ _ _ hp
  have hsh1 : shaped (maskFold (511 - (1 <<< (v - 1)))
      ((List.range 9).map fun b => (r, b)) (set2d pv r c 0)) :=
    shaped_maskFold _ _ _ hsh0
  have hsh2 : shaped (maskFold (511 - (1 <<< (v - 1)))
      ((List.range 9).map fun a => (a, c)) (maskFold (511 - (1 <<< (v - 1)))
        ((List.range 9).map fun b => (r, b)) (set2d pv r c 0))) :=
    shaped_maskFold _ _ _ hsh1
  rw [e1, andMaskRow_eq, andMaskCol_eq, andMaskBox_eq,
    maskFold_get _ _ _ i j hsh2 hi hj (boxCells_bounded hr hc),
    maskFold_get _ _ _ i j hsh1 hi hj (colCells_bounded hc),
    maskFold_get _ _ _ i j hsh0 hi hj (rowCells_bounded hr),
    get2d_set2d_shaped pv 0 i j hp hr hc]
  have hbox_iff : ((3 * (r / 3) ≤ i ∧ i < 3 * (r / 3) + 3) ∧
      (3 * (c / 3) ≤ j ∧ j < 3 * (c / 3) + 3)) ↔ (i / 3 = r / 3 ∧ j / 3 = c / 3) := by
    omega
  simp only [mem_rowCells, mem_colCells, mem_boxCells, hbox_iff, hi, hj, and_true]
  split_ifs <;> first
    | rfl
    | omega
    | simp [Nat.zero_and, and_and_self]

/-- C6: the claim holds on the code.  For a well-shaped state, a bounded
cell and a bounded probe cell, place sets the chosen board cell to the
value and leaves every other board cell unchanged; the chosen cell's
candidate set becomes 0, every other cell of the same row, column or 3x3
box has its candidate-set bitmask ANDed with the complement of the
single-bit mask for the value, and every remaining candidate set is
untouched. -/
theorem c6_place_value_effects (s : BoardState) (r c v i j : Nat)
    (hb : shaped s.board) (hp : shaped s.pv) (hr : r < 9) (hc : c < 9)
    (hi : i < 9) (hj : j < 9) (hv1 : 1 ≤ v) (hv9 : v ≤ 9)
    (hun : get2d s.board r c = 0) :
    get2d (place_value s r c v).board i j =
      (if i = r ∧ j = c then v else get2d s.board i j) ∧
    get2d (place_value s r c v).pv i j =
      (if i = r ∧ j = c then 0
       else if i = r ∨ j = c ∨ (i / 3 = r / 3 ∧ j / 3 = c / 3) then
         get2d s.pv i j &&& (511 - (1 <<< (v - 1)))
       else get2d s.pv i j) := by
  obtain ⟨bo, pv⟩ := s
  rw [place_eq, board_mk, pv_mk]
  exact ⟨get2d_set2d_shaped bo v i j hb hr hc, mviPv_get pv r c v i j hp hr hc hi hj⟩

/-- Witness for C6 at the concrete branching state sRect built from
gridRect, placing value 1 at the empty cell (0, 0) and probing the
row-peer cell (0, 1). -/
theorem c6_witness :
    ((shaped sRect.board ∧ shaped sRect.pv) ∧ get2d sRect.board 0 0 = 0) ∧
    (get2d (place_value sRect 0 0 1).board 0 1 =
        (if (0 : Nat) = 0 ∧ (1 : Nat) = 0 then 1 else get2d sRect.board 0 1) ∧
      get2d (place_value sRect 0 0 1).pv 0 1 =
        (if (0 : Nat) = 0 ∧ (1 : Nat) = 0 then 0
         else if (0 : Nat) = 0 ∨ (1 : Nat) = 0 ∨
             ((0 : Nat) / 3 = 0 / 3 ∧ (1 : Nat) / 3 = 0 / 3) then
           get2d sRect.pv 0 1 &&& (511 - (1 <<< (1 - 1)))
         else get2d sRect.pv 0 1)) :=
  ⟨⟨⟨⟨rfl, by decide⟩, ⟨rfl, by decide⟩⟩, by decide⟩,
    c6_place_value_effects sRect 0 0 1 0 1 ⟨rfl, by decide⟩ ⟨rfl, by decide⟩
      (by decide) (by decide) (by decide) (by decide) (by decide) (by decide)
      (by decide)⟩

/-- C3 (amended): when the frontier is empty the source loop guard fails at
once and solve hands back the current state as an ordinary return value,
complete or not; no failure of any kind is surfaced. -/
theorem c3_amended_exhausted_frontier_returns_state
    (lt : BoardState → BoardState → Bool) (fuel : Nat) (cur : BoardState)
    (vis : List (List Nat)) : solveGo lt fuel cur [] vis = some cur := by
  cases fuel with
  | zero => rw [solveGo_zero]; simp
  | succ f => rw [solveGo_succ]; simp

/-- C4 (amended): a popped frontier state is always expanded, whether or
not its canonical key is already in the seen set: the loop body adds the
key, calls create_children on the popped state, and appends every child
whose key is not yet seen; the seen set only filters the children. -/
theorem c4_amended_popped_duplicate_still_expanded
    (lt : BoardState → BoardState → Bool) (q : List (Nat × BoardState))
    (vis : List (List Nat)) (e : Nat × BoardState) (rest : List (Nat × BoardState))
    (hpop : popQueue lt q = some (e, rest)) (hseen : boardKey e.2 ∈ vis) :
    loopBody lt q vis =
      some (e.2, rest ++ (create_children e.2).filterMap (fun ch =>
        if boardKey ch ∈ boardKey e.2 :: vis then none
        else some (get_dist_to_goal ch, ch)), boardKey e.2 :: vis) := by
  unfold loopBody
  rw [hpop]

/-- Witness for C4 at the dead state sDead, whose key is already the one
element of the seen set when it is popped. -/
theorem c4_witness :
    loopBody ltFifo [(80, sDead)] [boardKey sDead] =
      some (sDead, [] ++ (create_children sDead).filterMap (fun ch =>
        if boardKey ch ∈ boardKey sDead :: [boardKey sDead] then none
        else some (get_dist_to_goal ch, ch)), boardKey sDead :: [boardKey sDead]) :=
  c4_amended_popped_duplicate_still_expanded ltFifo [(80, sDead)] [boardKey sDead]
    (80, sDead) [] rfl (by decide)

/-- C5 (amended): create_children returns no children exactly when every
one of the 81 candidate sets of the state is empty; a state whose most
constrained unfilled cell has an empty candidate set still branches on
some other cell as long as any cell keeps a candidate. -/
theorem c5_amended_children_empty_iff_no_candidates (s : BoardState) :
    create_children s = [] ↔ ∀ r, r < 9 → ∀ c, c < 9 → get2d s.pv r c = 0 := by
  cases hmin : minStep (get_scored_next_steps s) with
  | none =>
    have hl : create_children s = [] := by unfold create_children; rw [hmin]
    rw [hl]
    have hempty : get_scored_next_steps s = [] :=
      (minStep_eq_none_iff _).mp hmin
    constructor
    · intro _ r hr c hc
      by_contra hnz
      have hpc : popcount (get2d s.pv r c) ≠ 0 := popcount_ne_zero hnz
      have hmem : (popcount (get2d s.pv r c), r, c,
          get_vals_as_list (get2d s.pv r c)) ∈ get_scored_next_steps s := by
        unfold get_scored_next_steps
        refine List.mem_filterMap.mpr ⟨(r, c), mem_cells.mpr ⟨hr, hc⟩, ?_⟩
        rw [if_pos hpc]
      rw [hempty] at hmem
      exact absurd hmem (List.not_mem_nil _)
    · intro _; rfl
  | some e =>
    obtain ⟨pc, row, col, choices⟩ := e
    have hm := scored_mem (minStep_mem hmin)
    have hnz : get2d s.pv row col ≠ 0 := hm.2.1
    have hl : create_children s =
        choices.map (fun val => fast_forward (place_value s row col val)) := by
      unfold create_children; rw [hmin]
    rw [hl]
    constructor
    · intro hmap
      exfalso
      rw [List.map_eq_nil_iff] at hmap
      have hch : choices = get_vals_as_list (get2d s.pv row col) := by
        have h1 := hm.1
        simp only [Prod.mk.injEq] at h1
        exact h1.2.2.2
      rw [hch] at hmap
      exact get_vals_ne_nil hnz hmap
    · intro hall
      exact absurd (hall row hm.2.2.1 col hm.2.2.2) hnz

theorem givens_ok_iff (start sol : Mat) :
    (cells.any fun rc =>
        decide (get2d start rc.1 rc.2 ≠ 0) &&
          decide (get2d start rc.1 rc.2 ≠ get2d sol rc.1 rc.2)) = false ↔
      ∀ r, r < 9 → ∀ c, c < 9 →
        get2d start r c ≠ 0 → get2d sol r c = get2d start r c := by
  rw [List.any_eq_false]
  constructor
  · intro h r hr c hc hnz
    have h2 := h (r, c) (mem_cells.mpr ⟨hr, hc⟩)
    by_contra hne
    have hd : get2d start r c ≠ get2d sol r c := fun heq => hne heq.symm
    refine h2 ?_
    show (decide (get2d start r c ≠ 0) &&
      decide (get2d start r c ≠ get2d sol r c)) = true
    rw [decide_eq_true hnz, decide_eq_true hd]
    rfl
  · intro h rc hrc hcontra
    obtain ⟨hr, hc⟩ := mem_cells.mp hrc
    rw [Bool.and_eq_true, decide_eq_true_eq, decide_eq_true_eq] at hcontra
    exact hcontra.2 (h rc.1 hr rc.2 hc hcontra.1).symm

theorem rows_ok_iff (sol : Mat) :
    ((List.range 9).findSome? fun r =>
        if rowSum sol r ≠ ROW_TOTAL then some ((List.range 9).map fun c => get2d sol r c)
        else none) = none ↔ ∀ r, r < 9 → rowSum sol r = ROW_TOTAL := by
  rw [List.findSome?_eq_none_iff]
  constructor
  · intro h r hr
    have h2 := h r (List.mem_range.mpr hr)
    by_contra hne
    rw [if_pos hne] at h2
    exact Option.noConfusion h2
  · intro h r hr
    rw [if_neg (fun hne => hne (h r (List.mem_range.mp hr)))]

theorem cols_ok_iff (sol : Mat) :
    ((List.range 9).findSome? fun c =>
        if colSum sol c ≠ ROW_TOTAL then some c else none) = none ↔
      ∀ c, c < 9 → colSum sol c = ROW_TOTAL := by
  rw [List.findSome?_eq_none_iff]
  constructor
  · intro h c hc
    have h2 := h c (List.mem_range.mpr hc)
    by_contra hne
    rw [if_pos hne] at h2
    exact Option.noConfusion h2
  · intro h c hc
    rw [if_neg (fun hne => hne (h c (List.mem_range.mp hc)))]

theorem boxList_eq :
    (((List.range' 0 3 3).map fun rs =>
        (List.range' 0 3 3).map fun cs => (rs, cs)).flatten :
      List (Nat × Nat)) =
      [(0, 0), (0, 3), (0, 6), (3, 0), (3, 3), (3, 6), (6, 0), (6, 3), (6, 6)] := rfl

theorem boxes_ok_iff (sol : Mat) :
    ((((List.range' 0 3 3).map fun rs =>
        (List.range' 0 3 3).map fun cs => (rs, cs)).flatten).findSome? fun b =>
        if sectionSum sol b.1 b.2 ≠ ROW_TOTAL then some b else none) = none ↔
      ∀ rs, rs ∈ [0, 3, 6] → ∀ cs, cs ∈ [0, 3, 6] →
        sectionSum sol rs cs = ROW_TOTAL := by
  rw [List.findSome?_eq_none_iff, boxList_eq]
  constructor
  · intro h rs hrs cs hcs
    simp only [List.mem_cons, List.mem_singleton, List.not_mem_nil, or_false] at hrs hcs
    have hmem : ((rs, cs) : Nat × Nat) ∈
        [(0, 0), (0, 3), (0, 6), (3, 0), (3, 3), (3, 6), (6, 0), (6, 3), (6, 6)] := by
      rcases hrs with rfl | rfl | rfl <;> rcases hcs with rfl | rfl | rfl <;> simp
    have h2 := h (rs, cs) hmem
    by_contra hne
    rw [if_pos hne] at h2
    exact Option.noConfusion h2
  · intro h b hb
    simp only [List.mem_cons, List.mem_singleton, List.not_mem_nil, or_false] at hb
    have hsum : sectionSum sol b.1 b.2 = ROW_TOTAL := by
      rcases hb with rfl | rfl | rfl | rfl | rfl | rfl | rfl | rfl | rfl <;>
        exact h _ (by simp) _ (by simp)
    rw [if_neg (fun hne => hne hsum)]

/-- C7 (amended): validate_solution returns the ok outcome exactly when
every non-zero cell of the original grid is preserved in the candidate,
every row sums to 45, every column sums to 45 and every 3x3 section sums
to 45, the checks running in that order with the first failure winning;
the failure outcomes identify a bad column or section, but the
given-mutation outcome names no cell and the row outcome carries the row
contents rather than the row index. -/
theorem c7_amended_validate_ok_iff (start sol : Mat) :
    validate_solution start sol = VResult.ok ↔
      ((∀ r, r < 9 → ∀ c, c < 9 →
          get2d start r c ≠ 0 → get2d sol r c = get2d start r c) ∧
        (∀ r, r < 9 → rowSum sol r = ROW_TOTAL) ∧
        (∀ c, c < 9 → colSum sol c = ROW_TOTAL) ∧
        (∀ rs, rs ∈ [0, 3, 6] → ∀ cs, cs ∈ [0, 3, 6] →
          sectionSum sol rs cs = ROW_TOTAL)) := by
  unfold validate_solution
  constructor
  · intro h
    split at h
    · exact absurd h (by simp)
    next hany =>
      split at h
      next row hrow => exact absurd h (by simp)
      next hrow =>
        split at h
        next c0 hcol => exact absurd h (by simp)
        next hcol =>
          split at h
          next b hbox => exact absurd h (by simp)
          next hbox =>
            exact ⟨(givens_ok_iff start sol).mp (Bool.not_eq_true _ ▸ hany),
              (rows_ok_iff sol).mp hrow, (cols_ok_iff sol).mp hcol,
              (boxes_ok_iff sol).mp hbox⟩
  · rintro ⟨hG, hR, hC, hB⟩
    have hany : (cells.any fun rc =>
        decide (get2d start rc.1 rc.2 ≠ 0) &&
          decide (get2d start rc.1 rc.2 ≠ get2d sol rc.1 rc.2)) = false :=
      (givens_ok_iff start sol).mpr hG
    have hrow := (rows_ok_iff sol).mpr hR
    have hcol := (cols_ok_iff sol).mpr hC
    have hbox := (boxes_ok_iff sol).mpr hB
    rw [hany, hrow, hcol, hbox]
    rfl

/-- Witness for C10 at the dead grid gridDead80, whose cell (0, 0) is a
non-zero given: the state solve returns still holds that given. -/
theorem c10_witness : get2d sDead.board 0 0 = get2d gridDead80 0 0 :=
  c10_given_cells_invariant gridDead80 0 0 (by decide) (by decide) (by decide)
    ltFifo 5 sDead solveDead_eq
